import Mathlib

/-!
Verification of the JSON/CSV/XLSX spreadsheet-editor core (shape detection,
flattening, grid building, type-hint casting, serialization).

The development shallowly embeds the JavaScript sources:
  - `json-sheet-rules.js` (shape detector and flatteners),
  - `webview-src/main.jsx` (`sheetToText`, `castWithType`, `inferType`,
    `celldataToMatrix`, `getCellText`, `setNestedValue`, `escapeCsv`),
  - the extension host module (`toSheetPayloadFromContent`, sheet builders,
    `createCell`, `parseCsv`, `inferSimpleHint`).

Modeling conventions:
  - JavaScript numbers are modeled exactly as decimal rationals
    (`JsNum`: an integer mantissa scaled by a power of ten) rather than as
    IEEE-754 doubles.  Float rounding, `-0`, exponent-style rendering of very
    large/small magnitudes and the exact one-ulp overflow boundary are not
    modeled; no claim below depends on them.  `Number(text)` on non-empty
    trimmed text is modeled by `jsNumberParse` (decimal, hex, octal and binary
    literals; `Infinity` and out-of-range magnitudes are non-finite), and
    `String(number)` by `jsDisplayNum`.
  - `String.prototype.trim` is modeled by `jsTrim` over an explicit whitespace
    character set; `/^true$/i` style tests by ASCII lowercasing.
  - JavaScript objects are modeled as ordered association lists with unique
    keys (JS object semantics); property assignment is `objSet` (overwrite in
    place, append new keys), matching JS property-insertion order.
  - `undefined` cells / array holes are modeled by an explicit `Cell.empty`.
-/

set_option autoImplicit false
set_option maxRecDepth 8000

/-! ## JavaScript numbers as exact decimals -/

/-- A finite JavaScript number, represented exactly as `mant / 10 ^ dec`. -/
structure JsNum where
  mant : Int
  dec : Nat
  deriving DecidableEq, Repr

/-- Strip factors of ten so that the representation is canonical. -/
def stripTens : Int → Nat → JsNum
  | m, 0 => ⟨m, 0⟩
  | m, d + 1 => if m % 10 = 0 then stripTens (m / 10) d else ⟨m, d + 1⟩

/-- Canonical form: zero is `⟨0, 0⟩`; otherwise trailing decimal zeros are
stripped, so syntactic equality of normal forms is value equality. -/
def JsNum.norm (n : JsNum) : JsNum :=
  if n.mant = 0 then ⟨0, 0⟩ else stripTens n.mant n.dec

/-! ## JSON values -/

inductive Json where
  | null : Json
  | bool (b : Bool) : Json
  | num (n : JsNum) : Json
  | str (s : String) : Json
  | arr (elements : List Json) : Json
  | obj (fields : List (String × Json)) : Json

mutual

def Json.decEq : (a b : Json) → Decidable (a = b)
  | .null, .null => isTrue rfl
  | .null, .bool _ => isFalse fun h => Json.noConfusion h
  | .null, .num _ => isFalse fun h => Json.noConfusion h
  | .null, .str _ => isFalse fun h => Json.noConfusion h
  | .null, .arr _ => isFalse fun h => Json.noConfusion h
  | .null, .obj _ => isFalse fun h => Json.noConfusion h
  | .bool _, .null => isFalse fun h => Json.noConfusion h
  | .bool a, .bool b =>
    if h : a = b then isTrue (by rw [h]) else isFalse fun hh => h (Json.bool.inj hh)
  | .bool _, .num _ => isFalse fun h => Json.noConfusion h
  | .bool _, .str _ => isFalse fun h => Json.noConfusion h
  | .bool _, .arr _ => isFalse fun h => Json.noConfusion h
  | .bool _, .obj _ => isFalse fun h => Json.noConfusion h
  | .num _, .null => isFalse fun h => Json.noConfusion h
  | .num _, .bool _ => isFalse fun h => Json.noConfusion h
  | .num a, .num b =>
    if h : a = b then isTrue (by rw [h]) else isFalse fun hh => h (Json.num.inj hh)
  | .num _, .str _ => isFalse fun h => Json.noConfusion h
  | .num _, .arr _ => isFalse fun h => Json.noConfusion h
  | .num _, .obj _ => isFalse fun h => Json.noConfusion h
  | .str _, .null => isFalse fun h => Json.noConfusion h
  | .str _, .bool _ => isFalse fun h => Json.noConfusion h
  | .str _, .num _ => isFalse fun h => Json.noConfusion h
  | .str a, .str b =>
    if h : a = b then isTrue (by rw [h]) else isFalse fun hh => h (Json.str.inj hh)
  | .str _, .arr _ => isFalse fun h => Json.noConfusion h
  | .str _, .obj _ => isFalse fun h => Json.noConfusion h
  | .arr _, .null => isFalse fun h => Json.noConfusion h
  | .arr _, .bool _ => isFalse fun h => Json.noConfusion h
  | .arr _, .num _ => isFalse fun h => Json.noConfusion h
  | .arr _, .str _ => isFalse fun h => Json.noConfusion h
  | .arr a, .arr b =>
    match Json.decEqList a b with
    | isTrue h => isTrue (by rw [h])
    | isFalse h => isFalse fun hh => h (Json.arr.inj hh)
  | .arr _, .obj _ => isFalse fun h => Json.noConfusion h
  | .obj _, .null => isFalse fun h => Json.noConfusion h
  | .obj _, .bool _ => isFalse fun h => Json.noConfusion h
  | .obj _, .num _ => isFalse fun h => Json.noConfusion h
  | .obj _, .str _ => isFalse fun h => Json.noConfusion h
  | .obj _, .arr _ => isFalse fun h => Json.noConfusion h
  | .obj a, .obj b =>
    match Json.decEqFields a b with
    | isTrue h => isTrue (by rw [h])
    | isFalse h => isFalse fun hh => h (Json.obj.inj hh)

def Json.decEqList : (a b : List Json) → Decidable (a = b)
  | [], [] => isTrue rfl
  | [], _ :: _ => isFalse fun h => List.noConfusion h
  | _ :: _, [] => isFalse fun h => List.noConfusion h
  | x :: xs, y :: ys =>
    match Json.decEq x y with
    | isFalse h => isFalse fun hh => h (List.cons.inj hh).1
    | isTrue h1 =>
      match Json.decEqList xs ys with
      | isTrue h2 => isTrue (by rw [h1, h2])
      | isFalse h => isFalse fun hh => h (List.cons.inj hh).2

def Json.decEqFields : (a b : List (String × Json)) → Decidable (a = b)
  | [], [] => isTrue rfl
  | [], _ :: _ => isFalse fun h => List.noConfusion h
  | _ :: _, [] => isFalse fun h => List.noConfusion h
  | (k, v) :: xs, (k2, v2) :: ys =>
    if hk : k = k2 then
      match Json.decEq v v2 with
      | isFalse h => isFalse fun hh => h (congrArg Prod.snd (List.cons.inj hh).1)
      | isTrue h1 =>
        match Json.decEqFields xs ys with
        | isTrue h2 => isTrue (by rw [hk, h1, h2])
        | isFalse h => isFalse fun hh => h (List.cons.inj hh).2
    else isFalse fun hh => hk (congrArg Prod.fst (List.cons.inj hh).1)

end

instance : DecidableEq Json := Json.decEq

/-- JS property read on a plain object (`obj[key]`); keys are unique in real
JS objects, so first match is the match. -/
def objLookup (fields : List (String × Json)) (key : String) : Option Json :=
  match fields.find? (fun e => e.1 == key) with
  | some e => some e.2
  | none => none

/-- JS property assignment `obj[key] = v`: an existing key keeps its position
and gets the new value, a new key is appended (JS property-insertion order). -/
def objSet (fields : List (String × Json)) (key : String) (value : Json) :
    List (String × Json) :=
  match fields with
  | [] => [(key, value)]
  | e :: rest =>
    if e.1 = key then (key, value) :: rest else e :: objSet rest key value

/-! ## Type hints -/

/-- The runtime-type tags the program stores in its type-hint maps
(`'string' | 'number' | 'boolean' | 'null' | 'array' | 'object'`). -/
inductive JType where
  | string : JType
  | number : JType
  | boolean : JType
  | null : JType
  | array : JType
  | object : JType
  deriving DecidableEq, Repr

/-- A type-hint map: a JS object used as a dictionary from path keys to type
tags, in property-insertion order. -/
abbrev TypeMap := List (String × JType)

def tmFind (m : TypeMap) (p : String) : Option JType :=
  match m.find? (fun e => e.1 == p) with
  | some e => some e.2
  | none => none

/-- The JS idiom `m[p] = m[p] || t`: every stored tag is a truthy (non-empty)
string, so a present binding is kept and only an absent one is added. -/
def tmSetIfAbsent (m : TypeMap) (p : String) (t : JType) : TypeMap :=
  match tmFind m p with
  | some _ => m
  | none => m ++ [(p, t)]

/-! ## JS string primitives -/

/-- The whitespace characters recognized by `String.prototype.trim` (ASCII
whitespace plus the common Unicode space characters). -/
def jsWhitespace (c : Char) : Bool :=
  c = ' ' ∨ c = '\t' ∨ c = '\n' ∨ c = '\r' ∨ c = Char.ofNat 11 ∨ c = Char.ofNat 12 ∨
    c = Char.ofNat 0xa0 ∨ c = Char.ofNat 0xfeff ∨ c = Char.ofNat 0x2028 ∨ c = Char.ofNat 0x2029

def jsTrimList (l : List Char) : List Char :=
  ((l.dropWhile jsWhitespace).reverse.dropWhile jsWhitespace).reverse

/-- Model of `text.trim()`. -/
def jsTrim (s : String) : String :=
  String.mk (jsTrimList s.toList)

def charLowerAscii (c : Char) : Char :=
  if 'A' ≤ c ∧ c ≤ 'Z' then Char.ofNat (c.toNat + 32) else c

/-- ASCII lowercasing; used to model the `/^true$/i`-style case-insensitive
regular-expression tests of the source. -/
def lowerAscii (s : String) : String :=
  String.mk (s.toList.map charLowerAscii)

/-- Split a character list at every occurrence of `c`; the result always has
at least one (possibly empty) piece, like JS `String.prototype.split`. -/
def splitOnCharL (c : Char) : List Char → List (List Char)
  | [] => [[]]
  | x :: t =>
    match splitOnCharL c t with
    | [] => [[]]
    | h :: r => if x = c then [] :: h :: r else (x :: h) :: r

/-! ## Number parsing and display -/

def digitVal (c : Char) : Nat := c.toNat - 48

def hexDigitVal (c : Char) : Nat :=
  if c.isDigit then digitVal c
  else if 'a' ≤ c ∧ c ≤ 'f' then c.toNat - 87
  else if 'A' ≤ c ∧ c ≤ 'F' then c.toNat - 55
  else 0

def isRadixDigit (base : Nat) (c : Char) : Bool :=
  if base = 16 then c.isDigit ∨ ('a' ≤ c ∧ c ≤ 'f') ∨ ('A' ≤ c ∧ c ≤ 'F')
  else if base = 8 then '0' ≤ c ∧ c ≤ '7'
  else c = '0' ∨ c = '1'

def radixVal (base : Nat) (l : List Char) : Nat :=
  l.foldl (fun a c => a * base + hexDigitVal c) 0

/-- Magnitudes at or above `2 ^ 1024` overflow to `Infinity` in JS and are
treated as non-finite (the exact boundary is one ulp below; see header). -/
def jsOverflowBound : Nat := 2 ^ 1024

/-- Package a scaled integer as a finite JS number, rejecting overflow. -/
def mkFinite (mant : Int) (dec : Nat) : Option JsNum :=
  if jsOverflowBound * 10 ^ dec ≤ mant.natAbs then none
  else some (JsNum.norm ⟨mant, dec⟩)

def parseExp (mant : Int) (dec : Nat) (l : List Char) : Option JsNum :=
  let p := match l with
    | '+' :: t => ((1 : Int), t)
    | '-' :: t => ((-1 : Int), t)
    | _ => ((1 : Int), l)
  let esgn := p.1
  let l1 := p.2
  if l1 = [] ∨ ¬ l1.all Char.isDigit then none
  else
    let e := radixVal 10 l1
    if 0 ≤ esgn then mkFinite (mant * (10 : Int) ^ e) dec
    else mkFinite mant (dec + e)

def parseDecTail (sgn : Int) (ip fp : List Char) (rest : List Char) : Option JsNum :=
  if ip = [] ∧ fp = [] then none
  else
    let mant : Int := sgn * (radixVal 10 (ip ++ fp) : Nat)
    let dec := fp.length
    match rest with
    | [] => mkFinite mant dec
    | 'e' :: t => parseExp mant dec t
    | 'E' :: t => parseExp mant dec t
    | _ => none

def parseDec (l : List Char) : Option JsNum :=
  let p := match l with
    | '+' :: t => ((1 : Int), t)
    | '-' :: t => ((-1 : Int), t)
    | _ => ((1 : Int), l)
  let sgn := p.1
  let l1 := p.2
  if l1 = "Infinity".toList then none
  else
    let ipp := l1.span Char.isDigit
    match ipp.2 with
    | '.' :: t =>
      let fpp := t.span Char.isDigit
      parseDecTail sgn ipp.1 fpp.1 fpp.2
    | _ => parseDecTail sgn ipp.1 [] ipp.2

def parseRadix (base : Nat) (l : List Char) : Option JsNum :=
  if l = [] ∨ ¬ l.all (isRadixDigit base) then none
  else mkFinite (radixVal base l) 0

/-- Model of `Number(text)` restricted to its use sites: `text` is non-empty
and already trimmed, and only finite results are of interest (`some n` exactly
when `Number(text)` is finite, in which case `n` is its exact value).  The
sources guard `text === ''` before every call, so the empty string (which JS
converts to `0`) is mapped to `none` here and is unreachable. -/
def jsNumberParse (s : String) : Option JsNum :=
  match s.toList with
  | [] => none
  | '0' :: c :: rest =>
    if c = 'x' ∨ c = 'X' then parseRadix 16 rest
    else if c = 'o' ∨ c = 'O' then parseRadix 8 rest
    else if c = 'b' ∨ c = 'B' then parseRadix 2 rest
    else parseDec ('0' :: c :: rest)
  | l => parseDec l

def padZerosTo (s : String) (k : Nat) : String :=
  String.mk (List.replicate (k - s.length) '0') ++ s

/-- Model of `String(n)` for a finite number: plain decimal notation
(exponent-style rendering of extreme magnitudes is not modeled; see header). -/
def jsDisplayNum (n : JsNum) : String :=
  let n := n.norm
  let sign := if n.mant < 0 then "-" else ""
  let a := n.mant.natAbs
  if n.dec = 0 then sign ++ toString a
  else
    let p := (10 : Nat) ^ n.dec
    sign ++ toString (a / p) ++ "." ++ padZerosTo (toString (a % p)) n.dec

/-! ## JSON.stringify -/

def jsonEscapeChar (c : Char) : String :=
  if c = '"' then "\\\""
  else if c = '\\' then "\\\\"
  else if c = '\n' then "\\n"
  else if c = '\r' then "\\r"
  else if c = '\t' then "\\t"
  else if c = Char.ofNat 8 then "\\b"
  else if c = Char.ofNat 12 then "\\f"
  else if c.toNat < 32 then
    "\\u00" ++ String.mk [hexDigitChar (c.toNat / 16), hexDigitChar (c.toNat % 16)]
  else String.singleton c
where
  hexDigitChar (n : Nat) : Char :=
    if n < 10 then Char.ofNat (48 + n) else Char.ofNat (87 + n)

def jsonQuote (s : String) : String :=
  "\"" ++ (s.toList.map jsonEscapeChar).foldl (· ++ ·) "" ++ "\""

mutual

/-- Model of compact `JSON.stringify(v)`. -/
def jsonStringify : Json → String
  | .null => "null"
  | .bool b => if b then "true" else "false"
  | .num n => jsDisplayNum n
  | .str s => jsonQuote s
  | .arr xs => "[" ++ jsonStringifyList xs ++ "]"
  | .obj fs => "\x7b" ++ jsonStringifyFields fs ++ "\x7d"

def jsonStringifyList : List Json → String
  | [] => ""
  | [x] => jsonStringify x
  | x :: y :: t => jsonStringify x ++ "," ++ jsonStringifyList (y :: t)

def jsonStringifyFields : List (String × Json) → String
  | [] => ""
  | [(k, v)] => jsonQuote k ++ ":" ++ jsonStringify v
  | (k, v) :: y :: t => jsonQuote k ++ ":" ++ jsonStringify v ++ "," ++ jsonStringifyFields (y :: t)

end

def indentSpaces (n : Nat) : String := String.mk (List.replicate n ' ')

mutual

/-- Model of pretty `JSON.stringify(v, null, 2)`. -/
def jsonStringifyP : Nat → Json → String
  | _, .null => "null"
  | _, .bool b => if b then "true" else "false"
  | _, .num n => jsDisplayNum n
  | _, .str s => jsonQuote s
  | _, .arr [] => "[]"
  | ind, .arr (x :: xs) =>
    "[\n" ++ jsonStringifyPList (ind + 2) (x :: xs) ++ "\n" ++ indentSpaces ind ++ "]"
  | _, .obj [] => "\x7b\x7d"
  | ind, .obj (f :: fs) =>
    "\x7b\n" ++ jsonStringifyPFields (ind + 2) (f :: fs) ++ "\n" ++ indentSpaces ind ++ "\x7d"

def jsonStringifyPList : Nat → List Json → String
  | _, [] => ""
  | ind, [x] => indentSpaces ind ++ jsonStringifyP ind x
  | ind, x :: y :: t =>
    indentSpaces ind ++ jsonStringifyP ind x ++ ",\n" ++ jsonStringifyPList ind (y :: t)

def jsonStringifyPFields : Nat → List (String × Json) → String
  | _, [] => ""
  | ind, [(k, v)] => indentSpaces ind ++ jsonQuote k ++ ": " ++ jsonStringifyP ind v
  | ind, (k, v) :: y :: t =>
    indentSpaces ind ++ jsonQuote k ++ ": " ++ jsonStringifyP ind v ++ ",\n" ++
      jsonStringifyPFields ind (y :: t)

end

def jsonStringifyPretty (v : Json) : String := jsonStringifyP 0 v

/-! ## String(value) -/

mutual

/-- Model of JS `String(v)` for the values that can reach it here: primitives
convert directly; an array converts as `join(',')` (with `null` elements
rendering empty), a plain object as `[object Object]`. -/
def jsStringOfJson : Json → String
  | .null => "null"
  | .bool b => if b then "true" else "false"
  | .num n => jsDisplayNum n
  | .str s => s
  | .arr xs => jsStringJoinList xs
  | .obj _ => "[object Object]"

def jsStringJoinList : List Json → String
  | [] => ""
  | [Json.null] => ""
  | [x] => jsStringOfJson x
  | Json.null :: y :: t => "," ++ jsStringJoinList (y :: t)
  | x :: y :: t => jsStringOfJson x ++ "," ++ jsStringJoinList (y :: t)

end

/-! ## The type-hint cast engine (`inferType`, `castWithType`) -/

/-- The `{ casted, type }` result record of the cast engine. -/
structure Casted where
  casted : Json
  type : JType
  deriving DecidableEq

/-- The two quoted-empty markers `""` and `''`. -/
def dqdq : String := "\"\""

def sqsq : String := String.mk [Char.ofNat 39, Char.ofNat 39]

/-- Free-form inference (`inferType` in `main.jsx`); its argument is always
already trimmed at the call sites. -/
def inferType (raw : String) : Casted :=
  if raw = "" then ⟨Json.str "", JType.string⟩
  else if lowerAscii raw = "true" then ⟨Json.bool true, JType.boolean⟩
  else if lowerAscii raw = "false" then ⟨Json.bool false, JType.boolean⟩
  else if lowerAscii raw = "null" then ⟨Json.null, JType.null⟩
  else
    match jsNumberParse raw with
    | some n => ⟨Json.num n, JType.number⟩
    | none => ⟨Json.str raw, JType.string⟩

/-- The cast engine (`castWithType` in `main.jsx`). -/
def castWithType (raw : String) (hint : Option JType) : Casted :=
  let trimmed := jsTrim raw
  if trimmed = dqdq ∨ trimmed = sqsq then ⟨Json.str "", JType.string⟩
  else if trimmed = "" then ⟨Json.str "", JType.string⟩
  else
    match hint with
    | none => inferType trimmed
    | some JType.string => inferType trimmed
    | some JType.number =>
      match jsNumberParse trimmed with
      | none => ⟨Json.str trimmed, JType.string⟩
      | some n => ⟨Json.num n, JType.number⟩
    | some JType.boolean =>
      if lowerAscii trimmed = "true" then ⟨Json.bool true, JType.boolean⟩
      else if lowerAscii trimmed = "false" then ⟨Json.bool false, JType.boolean⟩
      else ⟨Json.bool true, JType.boolean⟩
    | some JType.null => ⟨Json.null, JType.null⟩
    | some _ => ⟨Json.str trimmed, JType.string⟩


/-! ## Cells, matrices and `getCellText` -/

/-- A primitive value as stored inside a FortuneSheet cell. -/
inductive JsPrim where
  | pnull : JsPrim
  | pbool (b : Bool) : JsPrim
  | pnum (n : JsNum) : JsPrim
  | pstr (s : String) : JsPrim
  deriving DecidableEq

def JsPrim.toJson : JsPrim → Json
  | .pnull => Json.null
  | .pbool b => Json.bool b
  | .pnum n => Json.num n
  | .pstr s => Json.str s

/-- JS truthiness of a primitive. -/
def jsFalsyPrim : JsPrim → Bool
  | .pnull => true
  | .pbool b => !b
  | .pnum n => n.mant = 0
  | .pstr s => s = ""

/-- One matrix slot: `empty` is a hole / `undefined`, `prim` a bare primitive,
`vm` a FortuneSheet cell object with optional `v` (raw) and `m` (display)
properties. -/
inductive Cell where
  | empty : Cell
  | prim (p : JsPrim) : Cell
  | vm (v : Option JsPrim) (m : Option JsPrim) : Cell
  deriving DecidableEq

/-- Model of `getCellText` (`main.jsx`): falsy cells give `''`; primitives
give `String(cell)`; a cell object prefers `String(m ?? '')`, then
`String(v ?? '')`, then `''`. -/
def getCellText : Cell → String
  | .empty => ""
  | .prim p => if jsFalsyPrim p then "" else jsStringOfJson p.toJson
  | .vm v m =>
    match m with
    | some JsPrim.pnull => ""
    | some p => jsStringOfJson p.toJson
    | none =>
      match v with
      | some JsPrim.pnull => ""
      | some p => jsStringOfJson p.toJson
      | none => ""

abbrev CellMatrix := List (List Cell)

/-- Read `row[c]` (`undefined` beyond the end, as in JS). -/
def cellAt (row : List Cell) (c : Nat) : Cell := row.getD c Cell.empty

/-- Pad a matrix with empty rows so that row `r` exists
(JS: assigning `matrix[r]` extends the array, holes read as `undefined`,
and `matrix[r] || []` turns a hole into `[]`). -/
def padRowsTo (m : CellMatrix) (r : Nat) : CellMatrix :=
  m ++ List.replicate (r + 1 - m.length) []

def setInRow (row : List Cell) (c : Nat) (cell : Cell) : List Cell :=
  (row ++ List.replicate (c + 1 - row.length) Cell.empty).set c cell

/-- Model of `applyValue(r, c, value)` in both `celldataToMatrix` variants:
assign `matrix[r][c] = value`, creating the row and intermediate holes. -/
def setAt (m : CellMatrix) (r c : Nat) (cell : Cell) : CellMatrix :=
  let m := padRowsTo m r
  m.set r (setInRow (m.getD r []) c cell)

/-- One entry of a `celldata` list: `\x7b r, c, v \x7d`. -/
structure CellEntry where
  r : Nat
  c : Nat
  v : Cell
  deriving DecidableEq

/-- A FortuneSheet sheet object, restricted to the properties the
serialization logic reads (`name`, `celldata`, `data`); layout-only
properties (`row`, `column`, `order`, `status`, …) are omitted because
`sheetToText` never reads them. -/
structure Sheet where
  name : String := ""
  celldata : List CellEntry := []
  data : CellMatrix := []
  deriving DecidableEq

instance : Inhabited Sheet := ⟨{}⟩

/-- Model of the webview `celldataToMatrix(sheet)`: replay `sheet.data`
(skipping holes, as `forEach` does), then apply every `celldata` entry. -/
def celldataToMatrixW (sheet : Sheet) : CellMatrix :=
  let m1 :=
    if sheet.data.length ≠ 0 then
      sheet.data.enum.foldl
        (fun acc rp =>
          rp.2.enum.foldl
            (fun acc2 cp =>
              if cp.2 = Cell.empty then acc2 else setAt acc2 rp.1 cp.1 cp.2)
            acc)
        ([] : CellMatrix)
    else []
  sheet.celldata.foldl (fun acc e => setAt acc e.r e.c e.v) m1

/-! ## `escapeCsv` and `setNestedValue` -/

def csvNeedsQuote (s : String) : Bool :=
  s.toList.any (fun c => c = '"' ∨ c = ',' ∨ c = '\n')

def doubleQuotes (s : String) : String :=
  String.mk (s.toList.foldr (fun c acc => if c = '"' then '"' :: '"' :: acc else c :: acc) [])

/-- Model of `escapeCsv` (`main.jsx`): `null` (and `undefined`, not
representable here) becomes the empty field; otherwise `String(value)`,
quoted with doubled inner quotes when it contains `"`, `,` or a newline. -/
def escapeCsv (value : Json) : String :=
  match value with
  | Json.null => ""
  | v =>
    let s := jsStringOfJson v
    if csvNeedsQuote s then "\"" ++ doubleQuotes s ++ "\"" else s

/-- Model of `setNestedValue(target, dottedPath, value)` (`main.jsx`): split
the path on `.`, drop empty segments, create/replace intermediate objects
(any non-object value on the way is replaced by a fresh object), and assign
the final segment.  The source can also descend into an array value, but no
array can occur here because every stored value is a `castWithType` result. -/
def setNestedGo : List (String × Json) → List String → Json → List (String × Json)
  | t, [], _ => t
  | t, [k], v => objSet t k v
  | t, k :: k2 :: rest, v =>
    let sub :=
      match objLookup t k with
      | some (Json.obj fs) => fs
      | _ => []
    objSet t k (Json.obj (setNestedGo sub (k2 :: rest) v))

def setNestedValue (target : List (String × Json)) (dottedPath : String) (value : Json) :
    List (String × Json) :=
  let parts := ((splitOnCharL '.' dottedPath.toList).map String.mk).filter (· ≠ "")
  setNestedGo target parts value

/-! ## `sheetToText` -/

/-- The `dataKind` strings dispatched on by `sheetToText`; every value other
than the five named ones (in particular `'object'`, the key/value kind, and
`'unsupported'`) falls through to the final key/value branch, exactly as the
string-comparison chain in the source does. -/
inductive DataKind where
  | dkArray : DataKind
  | dkWrappedArray : DataKind
  | dkObjectOfObjects : DataKind
  | dkCsv : DataKind
  | dkXlsx : DataKind
  | dkObject : DataKind
  | dkUnsupported : DataKind
  deriving DecidableEq, Repr

/-- Wrapper metadata for the `wrappedArray` shape. -/
structure Wrapper where
  meta : List (String × Json)
  dataProp : String
  deriving DecidableEq

/-- Result record of `sheetToText`.  `outJson` is the in-memory value whose
pretty-printing (`JSON.stringify(v, null, 2)`) is `textOut` for the JSON
kinds; it is exposed so that theorems can speak about the serialized document
semantically. -/
structure SheetOut where
  textOut : String
  nextTypeMap : TypeMap
  matrix : CellMatrix
  outJson : Option Json
  xlsxSheets : Option (List (String × CellMatrix))

/-- The array path string `` `[${i}]` ``. -/
def idxPath (i : Nat) : String := "[" ++ toString i ++ "]"

/-- The array/wrappedArray path string `` `[${i}].${header}` ``. -/
def rowPath (i : Nat) (header : String) : String := idxPath i ++ "." ++ header

/-- One header step of the `array` branch row loop: cast the cell, update the
hint map, and record the field only when the raw text is non-empty. -/
def arrObjStepF (i : Nat) (row : List Cell)
    (st : List (String × Json) × Bool × TypeMap) (hc : Nat × String) :
    List (String × Json) × Bool × TypeMap :=
  let raw := getCellText (cellAt row hc.1)
  let path := rowPath i hc.2
  let res := castWithType raw (tmFind st.2.2 path)
  let tm2 := tmSetIfAbsent st.2.2 path res.type
  if raw ≠ "" then (objSet st.1 hc.2 res.casted, true, tm2)
  else (st.1, st.2.1, tm2)

def arrObjRowStep (headers : List String) (i : Nat) (row : List Cell) (tm : TypeMap) :
    List (String × Json) × Bool × TypeMap :=
  headers.enum.foldl (arrObjStepF i row) ([], false, tm)

/-- The `array` branch row loop (`for r = 1 …` in the source; `i` is `r - 1`).
In `primMode` (a non-`'object'` hint recorded at path `[0]`) each row is a
bare scalar taken from column 1 (or column 0 when column 1 is a hole). -/
def arrayLoop (headers : List String) (primMode : Bool) :
    List (List Cell) → Nat → TypeMap → List Json × TypeMap
  | [], _, tm => ([], tm)
  | row :: rest, i, tm =>
    if primMode then
      let cellSel := if cellAt row 1 = Cell.empty then cellAt row 0 else cellAt row 1
      let raw := getCellText cellSel
      let path := idxPath i
      let res := castWithType raw (tmFind tm path)
      let tm2 := tmSetIfAbsent tm path res.type
      let rec2 := arrayLoop headers primMode rest (i + 1) tm2
      ((if raw ≠ "" then res.casted :: rec2.1 else rec2.1), rec2.2)
    else
      let st := arrObjRowStep headers i row tm
      let rec2 := arrayLoop headers primMode rest (i + 1) st.2.2
      ((if st.2.1 then Json.obj st.1 :: rec2.1 else rec2.1), rec2.2)

/-- One header step of the `wrappedArray` branch row loop: the casted value is
always written into the row object through `setNestedValue` ("Preserve keys
even when value is cleared"), and the row counts as non-blank when any raw
text is non-empty. -/
def wrapStepF (i : Nat) (row : List Cell)
    (st : List (String × Json) × Bool × TypeMap) (hc : Nat × String) :
    List (String × Json) × Bool × TypeMap :=
  let raw := getCellText (cellAt row hc.1)
  let path := rowPath i hc.2
  let res := castWithType raw (tmFind st.2.2 path)
  let tm2 := tmSetIfAbsent st.2.2 path res.type
  let rowObj2 := setNestedValue st.1 hc.2 res.casted
  (rowObj2, (if raw ≠ "" then true else st.2.1), tm2)

def wrapRowStep (headers : List String) (i : Nat) (row : List Cell) (tm : TypeMap) :
    List (String × Json) × Bool × TypeMap :=
  headers.enum.foldl (wrapStepF i row) ([], false, tm)

def wrappedLoop (headers : List String) :
    List (List Cell) → Nat → TypeMap → List Json × TypeMap
  | [], _, tm => ([], tm)
  | row :: rest, i, tm =>
    let st := wrapRowStep headers i row tm
    let rec2 := wrappedLoop headers rest (i + 1) st.2.2
    ((if st.2.1 then Json.obj st.1 :: rec2.1 else rec2.1), rec2.2)

/-- One field step of the `objectOfObjects` row loop.  When the `key` column
is column 0, field `c` reads column `c + 1`; otherwise the column is found by
`headers.indexOf(field)` (always found, since `fieldHeaders ⊆ headers`;
`List.indexOf` returns the length when absent, which — like the `-1` JS would
return — reads as an out-of-range, empty cell). -/
def ooStepF (headers : List String) (kci : Option Nat) (key : String) (row : List Cell)
    (st : List (String × Json) × TypeMap) (fc : Nat × String) :
    List (String × Json) × TypeMap :=
  let cellIndex := if kci = some 0 then fc.1 + 1 else headers.indexOf fc.2
  let raw := getCellText (cellAt row cellIndex)
  let path := key ++ "." ++ fc.2
  let res := castWithType raw (tmFind st.2 path)
  let tm2 := tmSetIfAbsent st.2 path res.type
  (objSet st.1 fc.2 res.casted, tm2)

def ooRowStep (headers fieldHeaders : List String) (kci : Option Nat) (key : String)
    (row : List Cell) (tm : TypeMap) : List (String × Json) × TypeMap :=
  fieldHeaders.enum.foldl (ooStepF headers kci key row) ([], tm)

def ooLoop (headers fieldHeaders : List String) (kci : Option Nat) :
    List (List Cell) → List (String × Json) → TypeMap → List (String × Json) × TypeMap
  | [], out, tm => (out, tm)
  | row :: rest, out, tm =>
    let key := getCellText (cellAt row (kci.getD 0))
    if key = "" then ooLoop headers fieldHeaders kci rest out tm
    else
      let st := ooRowStep headers fieldHeaders kci key row tm
      ooLoop headers fieldHeaders kci rest (objSet out key (Json.obj st.1)) st.2

/-- One cell of a CSV row.  `row.map` skips holes but keeps them as holes,
and `join(',')` renders a hole as an empty field, so a hole contributes `""`
without touching the hint map. -/
def csvStepF (r : Nat) (st : List String × TypeMap) (cp : Nat × Cell) :
    List String × TypeMap :=
  if cp.2 = Cell.empty then (st.1 ++ [""], st.2)
  else
    let raw := getCellText cp.2
    let path := toString r ++ "," ++ toString cp.1
    let res := castWithType raw (tmFind st.2 path)
    let tm2 := tmSetIfAbsent st.2 path res.type
    (st.1 ++ [escapeCsv res.casted], tm2)

def csvRowStep (r : Nat) (row : List Cell) (tm : TypeMap) : List String × TypeMap :=
  row.enum.foldl (csvStepF r) ([], tm)

def csvLoop : List (List Cell) → Nat → TypeMap → List String × TypeMap
  | [], _, tm => ([], tm)
  | row :: rest, r, tm =>
    let st := csvRowStep r row tm
    let rec2 := csvLoop rest (r + 1) st.2
    (String.intercalate "," st.1 :: rec2.1, rec2.2)

/-- The key/value (default) branch row loop: column 0 is the key (empty key
rows are skipped), column 1 the value. -/
def kvLoop : List (List Cell) → List (String × Json) → TypeMap →
    List (String × Json) × TypeMap
  | [], result, tm => (result, tm)
  | row :: rest, result, tm =>
    let key := getCellText (cellAt row 0)
    if key = "" then kvLoop rest result tm
    else
      let rawValue := getCellText (cellAt row 1)
      let res := castWithType rawValue (tmFind tm key)
      let tm2 := tmSetIfAbsent tm key res.type
      kvLoop rest (objSet result key res.casted) tm2

/-- The headers of a table-like sheet: the texts of row 0, empty ones
filtered out. -/
def headersOf (matrix : CellMatrix) : List String :=
  ((matrix.headD []).map getCellText).filter (· ≠ "")

/-- Model of `sheetToText(sheets, currentTypeMap, dataKind, wrapper)`
(`main.jsx`), branch for branch. -/
def sheetToText (sheets : List Sheet) (currentTypeMap : TypeMap) (dataKind : DataKind)
    (wrapper : Option Wrapper) : SheetOut :=
  let sheet := sheets.headD {}
  let matrix := celldataToMatrixW sheet
  match dataKind with
  | DataKind.dkArray =>
    let headers := headersOf matrix
    let primMode :=
      match tmFind currentTypeMap "[0]" with
      | some t => t ≠ JType.object
      | none => false
    let res := arrayLoop headers primMode (matrix.drop 1) 0 currentTypeMap
    { textOut := jsonStringifyPretty (Json.arr res.1), nextTypeMap := res.2,
      matrix := matrix, outJson := some (Json.arr res.1), xlsxSheets := none }
  | DataKind.dkWrappedArray =>
    let headers := headersOf matrix
    let res := wrappedLoop headers (matrix.drop 1) 0 currentTypeMap
    let dataProp :=
      match wrapper with
      | some w => if w.dataProp = "" then "data" else w.dataProp
      | none => "data"
    let meta :=
      match wrapper with
      | some w => w.meta
      | none => []
    let out := Json.obj (objSet meta dataProp (Json.arr res.1))
    { textOut := jsonStringifyPretty out, nextTypeMap := res.2,
      matrix := matrix, outJson := some out, xlsxSheets := none }
  | DataKind.dkObjectOfObjects =>
    let headers := (matrix.headD []).map getCellText
    let kci := headers.findIdx? (· = "key")
    let fieldHeaders := (headers.enum.filter (fun p => kci ≠ some p.1 ∧ p.2 ≠ "")).map (·.2)
    let res := ooLoop headers fieldHeaders kci (matrix.drop 1) [] currentTypeMap
    { textOut := jsonStringifyPretty (Json.obj res.1), nextTypeMap := res.2,
      matrix := matrix, outJson := some (Json.obj res.1), xlsxSheets := none }
  | DataKind.dkCsv =>
    let res := csvLoop matrix 0 currentTypeMap
    { textOut := String.intercalate "\n" res.1, nextTypeMap := res.2,
      matrix := matrix, outJson := none, xlsxSheets := none }
  | DataKind.dkXlsx =>
    let xs := sheets.enum.map (fun p =>
      ((if p.2.name = "" then "Sheet" ++ toString (p.1 + 1) else p.2.name),
        celldataToMatrixW p.2))
    let serialized := jsonStringify (Json.arr (xs.map (fun s =>
      Json.obj [("name", Json.str s.1),
        ("matrix", Json.arr (s.2.map (fun row =>
          Json.arr (row.map (fun cell =>
            if cell = Cell.empty then Json.null else Json.str (getCellText cell))))))])))
    { textOut := serialized, nextTypeMap := currentTypeMap,
      matrix := matrix, outJson := none, xlsxSheets := some xs }
  | _ =>
    let res := kvLoop matrix [] currentTypeMap
    { textOut := jsonStringifyPretty (Json.obj res.1), nextTypeMap := res.2,
      matrix := matrix, outJson := some (Json.obj res.1), xlsxSheets := none }

/-! ## Shape detection and flattening (`json-sheet-rules.js`) -/

/-- `isPrimitive`: `null`, `undefined` (not representable in a parsed JSON
document), strings, numbers and booleans. -/
def isPrimitive : Json → Bool
  | Json.null => true
  | Json.bool _ => true
  | Json.num _ => true
  | Json.str _ => true
  | _ => false

/-- `isPlainObject`: truthy, of object type and not an array. -/
def isPlainObject : Json → Bool
  | Json.obj _ => true
  | _ => false

def isArrayOfPrimitives : Json → Bool
  | Json.arr xs => xs.all isPrimitive
  | _ => false

def optionalArrayWrapperProperty : String := "data"

def allowArrayOfPrimitives : Bool := true

def unsupportedRootReason : String :=
  "Unsupported JSON root object. Use either (1) key/value pairs with primitive values, or (2) key/object pairs where the inner objects only contain primitive fields."

def unsupportedReason : String := "Unsupported JSON. Expected an array or an object."

/-- The result union of `validateAndExtract`. -/
inductive Extracted where
  | wrappedArray (data : List Json) (meta : List (String × Json)) (dataProp : String) : Extracted
  | array (data : List Json) : Extracted
  | objectKV (object : List (String × Json)) : Extracted
  | objectOfObjects (object : List (String × Json)) : Extracted
  | notOk (reason : String) : Extracted
  deriving DecidableEq

/-- Model of `validateAndExtract(content)`: wrapper check first, then
top-level array, then the two object shapes, then the two rejections.
`delete meta[dataProp]` is modeled by filtering the key out (keys are unique
in a JS object, so at most one entry is removed). -/
def validateAndExtract (content : Json) : Extracted :=
  match content with
  | Json.obj fields =>
    match objLookup fields optionalArrayWrapperProperty with
    | some (Json.arr data) =>
      Extracted.wrappedArray data
        (fields.filter (fun e => e.1 ≠ optionalArrayWrapperProperty))
        optionalArrayWrapperProperty
    | _ =>
      let values := fields.map (·.2)
      if values.all (fun v => isPrimitive v || (allowArrayOfPrimitives && isArrayOfPrimitives v)) then
        Extracted.objectKV fields
      else if values.all isPlainObject then Extracted.objectOfObjects fields
      else Extracted.notOk unsupportedRootReason
  | Json.arr data => Extracted.array data
  | _ => Extracted.notOk unsupportedReason

/-- The `\x7b ok, flat \x7d` / `\x7b ok: false, errors \x7d` result union of the
flatteners. -/
inductive FlatResult where
  | ok (flat : List (String × Json)) : FlatResult
  | err (errors : List String) : FlatResult
  deriving DecidableEq

def rowNotObjectError : String := "Each row must be an object."

def rowArrayValueError (key : String) : String :=
  "Unsupported array value at \"" ++ key ++ "\". Only arrays of primitive values are supported."

def rowNestedObjectError (key : String) : String :=
  "Nested object at \"" ++ key ++ "\" is not supported in table rows. Flatten it first (e.g. use \"" ++
    key ++ ".field\" columns) or change your JSON shape."

def rowOtherValueError (key : String) : String :=
  "Unsupported value type at \"" ++ key ++ "\"."

/-- Per-field policy of `flattenRowObject`, producing either the flattened
binding or the error message pushed for this field. -/
def flattenRowField (key : String) (value : Json) : Sum Json String :=
  if isPrimitive value then Sum.inl value
  else
    match value with
    | Json.arr xs =>
      if allowArrayOfPrimitives && isArrayOfPrimitives (Json.arr xs) then
        Sum.inl (Json.str (jsonStringify (Json.arr xs)))
      else Sum.inr (rowArrayValueError key)
    | Json.obj _ => Sum.inr (rowNestedObjectError key)
    | _ => Sum.inr (rowOtherValueError key)

/-- The shared per-field fold of both flatteners: a successful field is
assigned into the `out` object, a failing one pushes its message onto the
collected error list. -/
def flattenStep (f : String → Json → Sum Json String)
    (st : List (String × Json) × List String) (e : String × Json) :
    List (String × Json) × List String :=
  match f e.1 e.2 with
  | Sum.inl v => (objSet st.1 e.1 v, st.2)
  | Sum.inr msg => (st.1, st.2 ++ [msg])

/-- Model of `flattenRowObject(row)`: non-objects are rejected outright;
otherwise every field is processed (errors are collected, not fail-fast) and
the result is `ok` exactly when no error was pushed. -/
def flattenRowObject (row : Json) : FlatResult :=
  match row with
  | Json.obj fields =>
    let st := fields.foldl (flattenStep flattenRowField) ([], [])
    if st.2 ≠ [] then FlatResult.err st.2 else FlatResult.ok st.1
  | _ => FlatResult.err [rowNotObjectError]

def innerNotObjectError (parentKeyForError : String) : String :=
  "Value at \"" ++ parentKeyForError ++ "\" must be an object."

def innerArrayValueError (fullKey : String) : String :=
  "Unsupported array value at \"" ++ fullKey ++ "\". Only arrays of primitive values are supported."

def innerNestedObjectError (fullKey : String) : String :=
  "Nested object too deep at \"" ++ fullKey ++ "\". Inner objects must be flat."

def innerOtherValueError (fullKey : String) : String :=
  "Unsupported value type at \"" ++ fullKey ++ "\"."

def flattenInnerField (fullKey : String) (value : Json) : Sum Json String :=
  if isPrimitive value then Sum.inl value
  else
    match value with
    | Json.arr xs =>
      if allowArrayOfPrimitives && isArrayOfPrimitives (Json.arr xs) then
        Sum.inl (Json.str (jsonStringify (Json.arr xs)))
      else Sum.inr (innerArrayValueError fullKey)
    | Json.obj _ => Sum.inr (innerNestedObjectError fullKey)
    | _ => Sum.inr (innerOtherValueError fullKey)

/-- Model of `flattenInnerObject(inner, parentKeyForError)`: identical policy
to `flattenRowObject`, with error paths prefixed `parentKeyForError.key`. -/
def flattenInnerObject (inner : Json) (parentKeyForError : String) : FlatResult :=
  match inner with
  | Json.obj fields =>
    let st := fields.foldl
      (flattenStep (fun key value => flattenInnerField (parentKeyForError ++ "." ++ key) value))
      ([], [])
    if st.2 ≠ [] then FlatResult.err st.2 else FlatResult.ok st.1
  | _ => FlatResult.err [innerNotObjectError parentKeyForError]

/-! ## Sheet builders (extension host) -/

/-- The `v` payload built by `createCell(r, c, value)` (the host module):
`null` displays as `'null'`, `undefined` as `''`, objects and arrays as their
compact `JSON.stringify` (which also replaces the raw value), and other
primitives as `String(value)`. -/
def createCellV (value : Option Json) : Cell :=
  match value with
  | none => Cell.vm (some (JsPrim.pstr "")) (some (JsPrim.pstr ""))
  | some Json.null => Cell.vm (some JsPrim.pnull) (some (JsPrim.pstr "null"))
  | some (Json.arr xs) =>
    let d := jsonStringify (Json.arr xs)
    Cell.vm (some (JsPrim.pstr d)) (some (JsPrim.pstr d))
  | some (Json.obj fs) =>
    let d := jsonStringify (Json.obj fs)
    Cell.vm (some (JsPrim.pstr d)) (some (JsPrim.pstr d))
  | some (Json.bool b) => Cell.vm (some (JsPrim.pbool b)) (some (JsPrim.pstr (if b then "true" else "false")))
  | some (Json.num n) => Cell.vm (some (JsPrim.pnum n)) (some (JsPrim.pstr (jsDisplayNum n)))
  | some (Json.str s) => Cell.vm (some (JsPrim.pstr s)) (some (JsPrim.pstr s))

/-- The display text `createCell` stores for a value (its `m` property). -/
def cellDisplay (value : Option Json) : String :=
  match value with
  | none => ""
  | some Json.null => "null"
  | some (Json.arr xs) => jsonStringify (Json.arr xs)
  | some (Json.obj fs) => jsonStringify (Json.obj fs)
  | some (Json.bool b) => if b then "true" else "false"
  | some (Json.num n) => jsDisplayNum n
  | some (Json.str s) => s

/-- Turn builder rows into the `celldata` list.  Every sheet builder in the
host module pushes its `createCell(r, c, …)` calls in exactly row-major
order, which this captures. -/
def rowsToCells (rows : List (List Cell)) : List CellEntry :=
  (rows.enum.map (fun rp => rp.2.enum.map (fun cp => CellEntry.mk rp.1 cp.1 cp.2))).flatten

/-- Model of `celldataToMatrixFromCells(cells)` (the host module). -/
def celldataToMatrixFromCells (cells : List CellEntry) : CellMatrix :=
  cells.foldl (fun m e => setAt m e.r e.c e.v) []

/-- Assemble a sheet the way every host builder does: push the cells in
row-major order, and set `data := celldataToMatrixFromCells(celldata)`. -/
def mkSheet (name : String) (rows : List (List Cell)) : Sheet :=
  let celldata := rowsToCells rows
  { name := name, celldata := celldata, data := celldataToMatrixFromCells celldata }

/-- Model of `createSheetFromObject(obj)`: one row per entry (no header row);
zero entries produce the default `key | value` row.  Returns the sheet list
together with the `'object'` data kind the source attaches. -/
def createSheetFromObject (fields : List (String × Json)) : List Sheet × DataKind :=
  let rows :=
    if fields = [] then
      [[createCellV (some (Json.str "key")), createCellV (some (Json.str "value"))]]
    else
      fields.enum.map (fun ip =>
        [createCellV (some (Json.str ip.2.1)), createCellV (some ip.2.2)])
  ([mkSheet "Sheet1" rows], DataKind.dkObject)

/-- Model of `collectHeaders(arr)`: union of object-element keys in first-seen
order (a JS `Set` preserves insertion order); `index | value` if empty. -/
def collectHeaders (arr : List Json) : List String :=
  let hs := arr.foldl
    (fun acc item =>
      match item with
      | Json.obj fields =>
        fields.foldl (fun acc2 e => if acc2.contains e.1 then acc2 else acc2 ++ [e.1]) acc
      | _ => acc)
    []
  if hs = [] then ["index", "value"] else hs

/-- Model of `createSheetFromArray(arr)`: header row from `collectHeaders`;
object rows populate each header column (`row[key]`, `undefined` when
absent); primitive rows store the element index in column 0 and the element
in column 1. -/
def createSheetFromArray (arr : List Json) : List Sheet × DataKind :=
  let headers := collectHeaders arr
  let headerRow := headers.map (fun key => createCellV (some (Json.str key)))
  let dataRows := arr.enum.map (fun ip =>
    match ip.2 with
    | Json.obj fields => headers.map (fun key => createCellV (objLookup fields key))
    | row => [createCellV (some (Json.num ⟨Int.ofNat ip.1, 0⟩)), createCellV (some row)])
  ([mkSheet "Sheet1" (headerRow :: dataRows)], DataKind.dkArray)

/-- Model of `createSheetsFromJson(json)`. -/
def createSheetsFromJson (json : Json) : List Sheet × DataKind :=
  match json with
  | Json.arr a => createSheetFromArray a
  | Json.obj fs => createSheetFromObject fs
  | _ => createSheetFromObject []

/-- Model of `createSheetFromFlatRows(headers, rows)`: header row, then one
row per flattened row object, absent keys filling in as `''`. -/
def createSheetFromFlatRows (headers : List String) (rows : List (List (String × Json))) :
    List Sheet :=
  let headerRow := headers.map (fun key => createCellV (some (Json.str key)))
  let dataRows := rows.map (fun rowObj => headers.map (fun key =>
    createCellV (some (match objLookup rowObj key with
      | some v => v
      | none => Json.str ""))))
  [mkSheet "Sheet1" (headerRow :: dataRows)]

/-- Model of `createSheetFromObjectOfObjects(keys, fieldHeaders, rows)`
(the `keys` argument is unused by the source body and omitted): header row
`key :: fieldHeaders`, then per outer key its key cell and field cells
(absent fields as `''`). -/
def createSheetFromObjectOfObjects (fieldHeaders : List String)
    (rows : List (String × List (String × Json))) : List Sheet :=
  let headers := "key" :: fieldHeaders
  let headerRow := headers.map (fun h => createCellV (some (Json.str h)))
  let dataRows := rows.map (fun kr =>
    createCellV (some (Json.str kr.1)) :: fieldHeaders.map (fun field =>
      createCellV (some (match objLookup kr.2 field with
        | some v => v
        | none => Json.str ""))))
  [mkSheet "Sheet1" (headerRow :: dataRows)]

/-- The `prepareObjectOfObjects` result union. -/
inductive PrepOO where
  | ok (fieldHeaders : List String) (rows : List (String × List (String × Json))) : PrepOO
  | notOk (reason : String) : PrepOO
  deriving DecidableEq

def prepOOGo : List (String × Json) → List String →
    List (String × List (String × Json)) → PrepOO
  | [], fh, rows => PrepOO.ok fh rows
  | e :: rest, fh, rows =>
    match flattenInnerObject e.2 e.1 with
    | FlatResult.err errors => PrepOO.notOk (String.intercalate " " errors)
    | FlatResult.ok flat =>
      let fh2 := flat.foldl (fun acc f => if acc.contains f.1 then acc else acc ++ [f.1]) fh
      prepOOGo rest fh2 (rows ++ [(e.1, flat)])

/-- Model of `prepareObjectOfObjects(obj)`: flatten every inner object in
key order, returning on the first failing inner object with its joined
errors; collect the union of inner-field names in first-seen order. -/
def prepareObjectOfObjects (object : List (String × Json)) : PrepOO :=
  prepOOGo object [] []

/-- Model of `inferSimpleHint(value)` (the CSV/XLSX per-cell seed). -/
def inferSimpleHint (value : Json) : JType :=
  match value with
  | Json.null => JType.null
  | Json.num _ => JType.number
  | Json.bool _ => JType.boolean
  | _ => JType.string

/-- Model of `createSheetFromMatrix(matrix, sheetName)`: per present cell,
record `inferSimpleHint` under the `` `${r},${c}` `` key (row-major insertion
order) and store the value (with `null`/`undefined` replaced by `''`). -/
def createSheetFromMatrix (matrix : List (List Json)) (sheetName : String) :
    List Sheet × TypeMap :=
  let typeMap := (matrix.enum.map (fun rp => rp.2.enum.map (fun cp =>
      (toString rp.1 ++ "," ++ toString cp.1, inferSimpleHint cp.2)))).flatten
  let rows := matrix.map (fun row => row.map (fun value =>
      createCellV (some (match value with
        | Json.null => Json.str ""
        | v => v))))
  ([mkSheet sheetName rows], typeMap)

/-! ## CSV parsing (`parseCsv`, extension host) -/

/-- Split on the regular expression `/\r?\n/`: split at every `'\n'` and
strip one trailing `'\r'` from each resulting piece. -/
def splitLinesJs (text : String) : List String :=
  (splitOnCharL '\n' text.toList).map (fun l =>
    match l.getLast? with
    | some '\r' => String.mk l.dropLast
    | _ => String.mk l)

/-- Model of the matrix built by `parseCsv(text)`: drop the last line when it
is blank after trimming, then split each kept line on commas and trim every
token. -/
def parseCsvMatrix (text : String) : List (List String) :=
  let lines := splitLinesJs text
  let kept := lines.enum.filter (fun p => ¬(p.1 = lines.length - 1 ∧ jsTrim p.2 = ""))
  kept.map (fun p => (splitOnCharL ',' p.2.toList).map (fun cl => jsTrim (String.mk cl)))

/-! ## `toSheetPayloadFromContent` (extension host) -/

deriving instance DecidableEq for Except

/-- The three species of in-memory content handed to the payload builder:
`parseCsv` output (`\x7b dataKind: 'csv', matrix, text \x7d`), the decoded
XLSX workbook (`\x7b dataKind: 'xlsx', sheets \x7d`), or a parsed JSON
document.  The tagged union models the three shapes the callers construct;
the source itself discriminates them by sniffing the `dataKind` property
with `content && content.dataKind === 'csv'` (then `'xlsx'`), a test that
also fires on a parsed JSON object that happens to carry its own
`"dataKind"` key with string value `"csv"` or `"xlsx"` — the model of
`toSheetPayloadFromContent` routes such documents through the csv/xlsx
branches exactly as the source does. -/
inductive Content where
  | csv (matrix : List (List String)) (text : String) : Content
  | xlsx (sheets : List (String × List (List Json))) : Content
  | json (doc : Json) : Content

/-- The webview `init` payload (the fields the serialization round trip
reads).  `text` holds the raw JS value of the `text` property: a string in
every host-built payload, but `content.text` — any JSON value or `undefined`
(`none`) — when a JSON document is sniffed into the csv branch. -/
structure Payload where
  sheets : List Sheet
  typeMap : TypeMap
  dataKind : DataKind
  wrapper : Option Wrapper := none
  error : Option String := none
  text : Option Json
  deriving DecidableEq

def flattenAllRows : List Json → Nat → List String → List (List (String × Json)) →
    Sum (Nat × List String) (List String × List (List (String × Json)))
  | [], _, headers, flatRows => Sum.inr (headers, flatRows)
  | row :: rest, i, headers, flatRows =>
    match flattenRowObject row with
    | FlatResult.err errors => Sum.inl (i, errors)
    | FlatResult.ok flat =>
      let headers2 := flat.foldl (fun acc e => if acc.contains e.1 then acc else acc ++ [e.1]) headers
      flattenAllRows rest (i + 1) headers2 (flatRows ++ [flat])

def buildArrayLike (data : List Json) (wrapper : Option Wrapper) (text : String) : Payload :=
  match flattenAllRows data 0 [] [] with
  | Sum.inl ie =>
    { sheets := [], typeMap := [], dataKind := DataKind.dkUnsupported,
      error := some ("Unsupported JSON at row[" ++ toString ie.1 ++ "]: " ++
        String.intercalate " " ie.2),
      text := some (Json.str text) }
  | Sum.inr hr =>
    let sheets := createSheetFromFlatRows hr.1 hr.2
    match wrapper with
    | some w =>
      { sheets := sheets, typeMap := [], dataKind := DataKind.dkWrappedArray,
        wrapper := some w, text := some (Json.str text) }
    | none =>
      { sheets := sheets, typeMap := [], dataKind := DataKind.dkArray,
        text := some (Json.str text) }

/-- JS truthiness of a parsed JSON value (`undefined` is handled by the
callers; `NaN` cannot occur in a parsed document). -/
def jsTruthy : Json → Bool
  | Json.null => false
  | Json.bool b => b
  | Json.num n => n.mant ≠ 0
  | Json.str s => s ≠ ""
  | _ => true

/-- JS property read `v[k]` on a parsed JSON value: objects look the key up,
`null` throws a `TypeError`, and every other value (primitive or array, for
a non-index key) yields `undefined` (`none`). -/
def jsGetProp (v : Json) (k : String) : Except String (Option Json) :=
  match v with
  | Json.null => Except.error ("TypeError: Cannot read properties of null (reading " ++ k ++ ")")
  | Json.obj fs => Except.ok (objLookup fs k)
  | _ => Except.ok none

/-- The iteration source of `(x || []).forEach(...)` for a JS value `x`
(`none` = `undefined`): a falsy value iterates nothing, an array iterates
its elements, and any other truthy value throws (`forEach` is not a
function on it). -/
def jsForEachList (v : Option Json) : Except String (List Json) :=
  match v with
  | none => Except.ok []
  | some w =>
    if jsTruthy w then
      match w with
      | Json.arr xs => Except.ok xs
      | _ => Except.error "TypeError: forEach is not a function"
    else Except.ok []

/-- Model of `createSheetFromMatrix(matrix, sheetName)` applied to an
arbitrary JS value, as the `dataKind`-sniffed branches do: iterate
`(matrix || []).forEach` and `(row || []).forEach` (throwing where JS
does), seed the per-cell hint map, build the cells, and finally read
`matrix.length` (which throws for `undefined` and `null`; for any other
non-array the `forEach` has already thrown, and for the remaining falsy
values the read yields `NaN`/`0` into the dropped layout field `row`).  A
non-string sheet name is stored by its JS string conversion — the model's
`Sheet.name` is a `String`; for every string name (every host-built sheet)
the conversion is the identity. -/
def createSheetFromMatrixJS (matrix : Option Json) (name : Json) :
    Except String (List Sheet × TypeMap) :=
  match jsForEachList matrix with
  | Except.error e => Except.error e
  | Except.ok rows =>
    match rows.mapM (fun row => jsForEachList (some row)) with
    | Except.error e => Except.error e
    | Except.ok cellRows =>
      match matrix with
      | none => Except.error "TypeError: Cannot read properties of undefined (reading length)"
      | some Json.null => Except.error "TypeError: Cannot read properties of null (reading length)"
      | some _ =>
        let typeMap := (cellRows.enum.map (fun rp => rp.2.enum.map (fun cp =>
            (toString rp.1 ++ "," ++ toString cp.1, inferSimpleHint cp.2)))).flatten
        let rowsCells := cellRows.map (fun row => row.map (fun value =>
            createCellV (some (match value with
              | Json.null => Json.str ""
              | v => v))))
        Except.ok ([mkSheet (jsStringOfJson name) rowsCells], typeMap)

/-- One `rawSheets.forEach` step of the sniffed xlsx branch:
`createSheetFromMatrix(s.matrix, s.name)` on an arbitrary JSON element `s`
(property reads throw on `null`; an `undefined` name falls back to the
`'Sheet1'` default parameter), keeping `built.sheets[0]` (the `order`
override touches a layout field the `Sheet` model drops). -/
def xlsxRawSheetBuild (s : Json) : Except String Sheet :=
  match jsGetProp s "matrix" with
  | Except.error e => Except.error e
  | Except.ok mx =>
    match jsGetProp s "name" with
    | Except.error e => Except.error e
    | Except.ok nm =>
      match createSheetFromMatrixJS mx (nm.getD (Json.str "Sheet1")) with
      | Except.error e => Except.error e
      | Except.ok built => Except.ok (built.1.headD {})

/-- The XLSX constructor branch builds each sheet through
`createSheetFromMatrix` (whose per-sheet type map it discards) and
overrides the order index, which `Sheet` does not track. -/
def mkSheetOfMatrix (name : String) (matrix : List (List Json)) : Sheet :=
  (createSheetFromMatrix matrix name).1.headD {}

/-- The JSON path of `toSheetPayloadFromContent` (everything after the two
`dataKind` sniff tests have failed): `validateAndExtract`, then the
shape-specific sheet builders.  Note that no JSON shape seeds a type-hint
map.  `text` is `JSON.stringify(content ?? \x7b\x7d, null, 2)`. -/
def toSheetPayloadFromJson (doc : Json) : Payload :=
  let text := jsonStringifyPretty (match doc with | Json.null => Json.obj [] | d => d)
  match validateAndExtract doc with
  | Extracted.notOk reason =>
    { sheets := [], typeMap := [], dataKind := DataKind.dkUnsupported,
      error := some reason, text := some (Json.str text) }
  | Extracted.objectKV object =>
    let sd := createSheetsFromJson (Json.obj object)
    { sheets := sd.1, typeMap := [], dataKind := sd.2, text := some (Json.str text) }
  | Extracted.objectOfObjects object =>
    match prepareObjectOfObjects object with
    | PrepOO.notOk reason =>
      { sheets := [], typeMap := [], dataKind := DataKind.dkUnsupported,
        error := some reason, text := some (Json.str text) }
    | PrepOO.ok fieldHeaders rows =>
      { sheets := createSheetFromObjectOfObjects fieldHeaders rows, typeMap := [],
        dataKind := DataKind.dkObjectOfObjects, text := some (Json.str text) }
  | Extracted.array data => buildArrayLike data none text
  | Extracted.wrappedArray data meta dataProp =>
    buildArrayLike data (some ⟨meta, dataProp⟩) text

/-- Model of `toSheetPayloadFromContent(content)`, the load-time payload
builder, including the `content && content.dataKind === 'csv'` / `'xlsx'`
property sniffing, which also fires on a parsed JSON object carrying a
`"dataKind"` key with one of those string values (strict equality: only a
string compares equal to `'csv'`; `null`, arrays and primitives have no
`dataKind` property or short-circuit the `&&`).  A sniffed csv document
reads `content.matrix` (usually `undefined`, so `createSheetFromMatrix`
throws at `matrix.length`); a sniffed xlsx document builds sheets from
`content.sheets` / `content.matrix` / the `[[ ]]` fallback.  Note that only
the csv branch seeds a type-hint map; every JSON shape and the xlsx branch
return an empty one. -/
def toSheetPayloadFromContent (content : Content) : Except String Payload :=
  match content with
  | Content.csv matrix text =>
    let sm := createSheetFromMatrix (matrix.map (fun row => row.map Json.str)) "Sheet1"
    Except.ok { sheets := sm.1, typeMap := sm.2, dataKind := DataKind.dkCsv,
                text := some (Json.str text) }
  | Content.xlsx rawSheets =>
    let sheets := rawSheets.map (fun nm => (mkSheetOfMatrix nm.1 nm.2))
    Except.ok { sheets := sheets, typeMap := [], dataKind := DataKind.dkXlsx,
                text := some (Json.str "") }
  | Content.json doc =>
    match doc with
    | Json.obj fields =>
      match objLookup fields "dataKind" with
      | some (Json.str s) =>
        if s = "csv" then
          match createSheetFromMatrixJS (objLookup fields "matrix") (Json.str "Sheet1") with
          | Except.error e => Except.error e
          | Except.ok sm =>
            Except.ok { sheets := sm.1, typeMap := sm.2, dataKind := DataKind.dkCsv,
                        text := objLookup fields "text" }
        else if s = "xlsx" then
          let rawSheets :=
            match objLookup fields "sheets" with
            | some (Json.arr ss) => ss
            | _ =>
              match objLookup fields "matrix" with
              | some (Json.arr mx) =>
                [Json.obj [("name", Json.str "Sheet1"), ("matrix", Json.arr mx)]]
              | _ => [Json.obj [("name", Json.str "Sheet1"),
                       ("matrix", Json.arr [Json.arr []])]]
          match rawSheets.mapM xlsxRawSheetBuild with
          | Except.error e => Except.error e
          | Except.ok sheets =>
            Except.ok { sheets := sheets, typeMap := [], dataKind := DataKind.dkXlsx,
                        text := some (Json.str "") }
        else Except.ok (toSheetPayloadFromJson (Json.obj fields))
      | _ => Except.ok (toSheetPayloadFromJson (Json.obj fields))
    | _ => Except.ok (toSheetPayloadFromJson doc)

/-! ## Helper lemmas: trimming -/

theorem dropWhile_self_idem {α : Type} (p : α → Bool) (l : List α) :
    (l.dropWhile p).dropWhile p = l.dropWhile p := by
  induction l with
  | nil => rfl
  | cons x xs ih =>
    by_cases h : p x
    · simpa [List.dropWhile_cons_of_pos h] using ih
    · simp [List.dropWhile_cons_of_neg h]

theorem dropWhile_append_last {α : Type} {p : α → Bool} {c : α} (hc : ¬ p c) (y : List α) :
    ∃ z, (y ++ [c]).dropWhile p = z ++ [c] := by
  induction y with
  | nil => exact ⟨[], by simp [hc]⟩
  | cons a t ih =>
    by_cases h : p a
    · simpa [List.dropWhile_cons_of_pos h] using ih
    · exact ⟨a :: t, by simp [List.dropWhile_cons_of_neg h]⟩

theorem jsTrimList_idem (l : List Char) : jsTrimList (jsTrimList l) = jsTrimList l := by
  unfold jsTrimList
  set w := jsWhitespace with hw
  set x := l.dropWhile w with hx
  have hfix : x.dropWhile w = x := by rw [hx]; exact dropWhile_self_idem w l
  set a := (x.reverse.dropWhile w).reverse with ha
  have hrev : a.reverse = x.reverse.dropWhile w := by rw [ha, List.reverse_reverse]
  have h1 : a.dropWhile w = a := by
    rcases hx2 : x with _ | ⟨c, t⟩
    · simp [ha, hx2]
    · have hc : ¬ w c := by
        have := hfix
        rw [hx2] at this
        by_contra hcc
        rw [List.dropWhile_cons_of_pos hcc] at this
        have hle := congrArg List.length this
        simp at hle
        have := (List.dropWhile_sublist (l := t) w).length_le
        omega
      have hxa : x.reverse = t.reverse ++ [c] := by rw [hx2]; simp
      obtain ⟨z, hz⟩ := dropWhile_append_last hc t.reverse
      have : a = c :: z.reverse := by
        rw [ha, hxa, hz]
        simp
      rw [this, List.dropWhile_cons_of_neg hc]
  have h2 : a.reverse.dropWhile w = a.reverse := by
    rw [hrev]
    exact dropWhile_self_idem w x.reverse
  rw [h1, h2, List.reverse_reverse]

theorem toList_mk (l : List Char) : (String.mk l).toList = l := rfl

theorem jsTrim_idem (s : String) : jsTrim (jsTrim s) = jsTrim s := by
  unfold jsTrim
  rw [toList_mk, jsTrimList_idem]

/-! ## Helper lemmas: the cast engine -/

theorem inferType_casted_str (t s : String) (h : (inferType t).casted = Json.str s) :
    s = "" ∨ s = t := by
  unfold inferType at h
  split_ifs at h with h1 h2 h3 h4
  · simp only [Json.str.injEq] at h
    exact Or.inl h.symm
  · rcases hp : jsNumberParse t with _ | n
    · rw [hp] at h
      simp only [Json.str.injEq] at h
      exact Or.inr h.symm
    · rw [hp] at h
      simp at h

theorem castWithType_trim (raw : String) (hint : Option JType) :
    castWithType raw hint = castWithType (jsTrim raw) hint := by
  unfold castWithType
  rw [jsTrim_idem]

/-- Claim C4: for every cell text and remembered hint, `castWithType` returns
exactly per the prioritized rules — a quoted empty marker (`""` or `''`)
forces the empty string with type `string`; empty (trimmed) text gives the
empty string with type `string`; with no hint or hint `string`, free-form
inference applies (case-insensitive `true`/`false` give a boolean,
case-insensitive `null` gives null, text parsing fully as a finite number
gives that number, anything else stays a string); with hint `number` the
parsed number is returned when finite and the text falls back to type
`string` otherwise; with hint `boolean`, `true`/`false` match
case-insensitively and any other non-empty text coerces to `true`; with hint
`null` the result is null.  Totality ("never fails") holds by construction:
`castWithType` is a total Lean function. -/
theorem claim4_cast_engine_rules (raw : String) (hint : Option JType) :
    (jsTrim raw = dqdq ∨ jsTrim raw = sqsq →
        castWithType raw hint = ⟨Json.str "", JType.string⟩)
  ∧ (jsTrim raw = "" → castWithType raw hint = ⟨Json.str "", JType.string⟩)
  ∧ (¬(jsTrim raw = dqdq ∨ jsTrim raw = sqsq) → jsTrim raw ≠ "" →
      ((hint = none ∨ hint = some JType.string →
          (lowerAscii (jsTrim raw) = "true" →
              castWithType raw hint = ⟨Json.bool true, JType.boolean⟩)
        ∧ (lowerAscii (jsTrim raw) ≠ "true" → lowerAscii (jsTrim raw) = "false" →
              castWithType raw hint = ⟨Json.bool false, JType.boolean⟩)
        ∧ (lowerAscii (jsTrim raw) ≠ "true" → lowerAscii (jsTrim raw) ≠ "false" →
            lowerAscii (jsTrim raw) = "null" →
              castWithType raw hint = ⟨Json.null, JType.null⟩)
        ∧ (lowerAscii (jsTrim raw) ≠ "true" → lowerAscii (jsTrim raw) ≠ "false" →
            lowerAscii (jsTrim raw) ≠ "null" →
              (∀ n, jsNumberParse (jsTrim raw) = some n →
                  castWithType raw hint = ⟨Json.num n, JType.number⟩)
            ∧ (jsNumberParse (jsTrim raw) = none →
                  castWithType raw hint = ⟨Json.str (jsTrim raw), JType.string⟩)))
      ∧ (hint = some JType.number →
          (∀ n, jsNumberParse (jsTrim raw) = some n →
              castWithType raw hint = ⟨Json.num n, JType.number⟩)
        ∧ (jsNumberParse (jsTrim raw) = none →
              castWithType raw hint = ⟨Json.str (jsTrim raw), JType.string⟩))
      ∧ (hint = some JType.boolean →
          (lowerAscii (jsTrim raw) = "true" →
              castWithType raw hint = ⟨Json.bool true, JType.boolean⟩)
        ∧ (lowerAscii (jsTrim raw) = "false" →
              castWithType raw hint = ⟨Json.bool false, JType.boolean⟩)
        ∧ (lowerAscii (jsTrim raw) ≠ "true" → lowerAscii (jsTrim raw) ≠ "false" →
              castWithType raw hint = ⟨Json.bool true, JType.boolean⟩))
      ∧ (hint = some JType.null → castWithType raw hint = ⟨Json.null, JType.null⟩))) := by
  refine ⟨?_, ?_, ?_⟩
  · intro h
    unfold castWithType
    simp only [h]
    simp
  · intro h
    unfold castWithType
    rw [h]
    simp
  · intro hq he
    refine ⟨?_, ?_, ?_, ?_⟩
    · intro hs
      refine ⟨?_, ?_, ?_, ?_⟩
      · intro ht
        rcases hs with rfl | rfl <;>
          simp [castWithType, inferType, hq, he, ht]
      · intro hnt hf
        rcases hs with rfl | rfl <;>
          simp [castWithType, inferType, hq, he, hnt, hf]
      · intro hnt hnf hnu
        rcases hs with rfl | rfl <;>
          simp [castWithType, inferType, hq, he, hnt, hnf, hnu]
      · intro hnt hnf hnu
        constructor
        · intro n hn
          rcases hs with rfl | rfl <;>
            simp [castWithType, inferType, hq, he, hnt, hnf, hnu, hn]
        · intro hn
          rcases hs with rfl | rfl <;>
            simp [castWithType, inferType, hq, he, hnt, hnf, hnu, hn]
    · rintro rfl
      constructor
      · intro n hn
        simp [castWithType, hq, he, hn]
      · intro hn
        simp [castWithType, hq, he, hn]
    · rintro rfl
      refine ⟨?_, ?_, ?_⟩
      · intro ht
        simp [castWithType, hq, he, ht]
      · intro hf
        simp [castWithType, hq, he, hf]
      · intro hnt hnf
        simp [castWithType, hq, he, hnt, hnf]
    · rintro rfl
      simp [castWithType, hq, he]

/-- Witness for C4 at the concrete input `" 42 "` with hint `number`. -/
theorem claim4_cast_engine_rules_witness :
    jsNumberParse (jsTrim " 42 ") = some ⟨42, 0⟩ ∧
      castWithType " 42 " (some JType.number) = ⟨Json.num ⟨42, 0⟩, JType.number⟩ :=
  ⟨by decide,
    (((claim4_cast_engine_rules " 42 " (some JType.number)).2.2 (by decide) (by decide)).2.1
        rfl).1 ⟨42, 0⟩ (by decide)⟩

/-- Claim C9: `castWithType` is invariant under leading/trailing whitespace of
its text argument; consequently a whitespace-only cell is treated as a cleared
cell (empty string of type `string`), a padded quoted-empty marker still
forces the empty string, and surrounding whitespace never survives into a
string-typed result. -/
theorem claim9_cast_trim_invariant (raw : String) (hint : Option JType) :
    castWithType raw hint = castWithType (jsTrim raw) hint
  ∧ (jsTrim raw = "" → castWithType raw hint = ⟨Json.str "", JType.string⟩)
  ∧ (jsTrim raw = dqdq ∨ jsTrim raw = sqsq →
      castWithType raw hint = ⟨Json.str "", JType.string⟩)
  ∧ ∀ s, (castWithType raw hint).casted = Json.str s → jsTrim s = s := by
  refine ⟨castWithType_trim raw hint, ?_, ?_, ?_⟩
  · intro h
    unfold castWithType
    rw [h]
    simp
  · intro h
    unfold castWithType
    simp only [h]
    simp
  · intro s h
    simp only [castWithType] at h
    by_cases h1 : jsTrim raw = dqdq ∨ jsTrim raw = sqsq
    · rw [if_pos h1] at h
      simp only [Json.str.injEq] at h
      rw [← h]
      decide
    · rw [if_neg h1] at h
      by_cases h2 : jsTrim raw = ""
      · rw [if_pos h2] at h
        simp only [Json.str.injEq] at h
        rw [← h]
        decide
      · rw [if_neg h2] at h
        rcases hint with _ | t
        · rcases inferType_casted_str _ _ h with rfl | rfl
          · decide
          · exact jsTrim_idem raw
        · cases t
          · rcases inferType_casted_str _ _ h with rfl | rfl
            · decide
            · exact jsTrim_idem raw
          · rcases hp : jsNumberParse (jsTrim raw) with _ | n
            · rw [hp] at h
              simp only [Json.str.injEq] at h
              rw [← h]
              exact jsTrim_idem raw
            · rw [hp] at h
              simp at h
          · split_ifs at h
          · simp at h
          · simp only [Json.str.injEq] at h
            rw [← h]
            exact jsTrim_idem raw
          · simp only [Json.str.injEq] at h
            rw [← h]
            exact jsTrim_idem raw

/-- Witness for C9 at the concrete input `"  42  "` with no hint, plus the
padded quoted-empty marker. -/
theorem claim9_cast_trim_invariant_witness :
    castWithType "  42  " none = castWithType (jsTrim "  42  ") none ∧
      castWithType ("  " ++ dqdq ++ "  ") none = ⟨Json.str "", JType.string⟩ :=
  ⟨(claim9_cast_trim_invariant "  42  " none).1,
    (claim9_cast_trim_invariant ("  " ++ dqdq ++ "  ") none).2.2.1 (by decide)⟩

/-- Model of `Array.isArray(v)`. -/
def isJsArray : Json → Bool
  | Json.arr _ => true
  | _ => false

theorem kvCondEq (fields : List (String × Json)) :
    ((fields.map (·.2)).all
        (fun v => isPrimitive v || (allowArrayOfPrimitives && isArrayOfPrimitives v)))
      = (fields.map (·.2)).all (fun v => isPrimitive v || isArrayOfPrimitives v) := by
  simp [allowArrayOfPrimitives]

theorem validateAndExtract_obj_not_wrapped (fields : List (String × Json))
    (hno : (objLookup fields "data").all (fun v => !isJsArray v) = true) :
    validateAndExtract (Json.obj fields) =
      (if (fields.map (·.2)).all (fun v => isPrimitive v || isArrayOfPrimitives v) then
        Extracted.objectKV fields
      else if (fields.map (·.2)).all isPlainObject then Extracted.objectOfObjects fields
      else Extracted.notOk unsupportedRootReason) := by
  simp only [validateAndExtract]
  rw [← kvCondEq]
  rcases hl : objLookup fields optionalArrayWrapperProperty with _ | v
  · rfl
  · have hv : objLookup fields "data" = some v := hl
    rw [hv] at hno
    cases v
    · rfl
    · rfl
    · rfl
    · rfl
    · simp [isJsArray] at hno
    · rfl

/-- Claim C5: `validateAndExtract` classifies a parsed document by first match
in precedence order — plain object with array-valued `data` property gives
`wrappedArray` with the other own properties as meta; otherwise an array gives
`array`; otherwise a plain object with all values primitive or
array-of-primitives gives `objectKV`; otherwise a plain object with all values
plain objects gives `objectOfObjects`; otherwise a plain object is rejected
with the unsupported-root-object reason; any other value is rejected with
"Unsupported JSON. Expected an array or an object."; and the mixed object
`{"a": {"b": 1}, "c": [1, 2]}` is rejected. -/
theorem claim5_shape_detector_precedence (doc : Json) :
    (∀ fields, doc = Json.obj fields →
        (∀ xs, objLookup fields "data" = some (Json.arr xs) →
            validateAndExtract doc =
              Extracted.wrappedArray xs (fields.filter (fun e => e.1 ≠ "data")) "data")
      ∧ ((objLookup fields "data").all (fun v => !isJsArray v) = true →
          ((fields.map (·.2)).all (fun v => isPrimitive v || isArrayOfPrimitives v) = true →
              validateAndExtract doc = Extracted.objectKV fields)
        ∧ ((fields.map (·.2)).all (fun v => isPrimitive v || isArrayOfPrimitives v) = false →
            (fields.map (·.2)).all isPlainObject = true →
              validateAndExtract doc = Extracted.objectOfObjects fields)
        ∧ ((fields.map (·.2)).all (fun v => isPrimitive v || isArrayOfPrimitives v) = false →
            (fields.map (·.2)).all isPlainObject = false →
              validateAndExtract doc = Extracted.notOk unsupportedRootReason)))
  ∧ (isPlainObject doc = false → ∀ xs, doc = Json.arr xs →
        validateAndExtract doc = Extracted.array xs)
  ∧ (isPlainObject doc = false → isJsArray doc = false →
        validateAndExtract doc = Extracted.notOk unsupportedReason)
  ∧ validateAndExtract (Json.obj [("a", Json.obj [("b", Json.num ⟨1, 0⟩)]),
        ("c", Json.arr [Json.num ⟨1, 0⟩, Json.num ⟨2, 0⟩])]) =
      Extracted.notOk unsupportedRootReason := by
  refine ⟨?_, ?_, ?_, by decide⟩
  · rintro fields rfl
    constructor
    · intro xs hx
      simp only [validateAndExtract]
      rw [show objLookup fields optionalArrayWrapperProperty = some (Json.arr xs) from hx]
      rfl
    · intro hno
      refine ⟨?_, ?_, ?_⟩
      · intro hall
        rw [validateAndExtract_obj_not_wrapped fields hno, if_pos hall]
      · intro hnall hobj
        rw [validateAndExtract_obj_not_wrapped fields hno]
        rw [if_neg (by simp [hnall]), if_pos hobj]
      · intro hnall hnobj
        rw [validateAndExtract_obj_not_wrapped fields hno]
        rw [if_neg (by simp [hnall]), if_neg (by simp [hnobj])]
  · intro _ xs hx
    subst hx
    rfl
  · intro hobj harr
    cases doc
    · rfl
    · rfl
    · rfl
    · rfl
    · simp [isJsArray] at harr
    · simp [isPlainObject] at hobj

/-- Witness for C5: a key/value document, a bare array, a scalar root, and
the wrapper shape, each classified concretely. -/
theorem claim5_shape_detector_precedence_witness :
    validateAndExtract (Json.obj [("k", Json.num ⟨1, 0⟩)])
        = Extracted.objectKV [("k", Json.num ⟨1, 0⟩)] ∧
      validateAndExtract (Json.arr [Json.num ⟨1, 0⟩]) = Extracted.array [Json.num ⟨1, 0⟩] ∧
      validateAndExtract (Json.str "x") = Extracted.notOk unsupportedReason ∧
      validateAndExtract (Json.obj [("data", Json.arr [])])
        = Extracted.wrappedArray [] [] "data" :=
  ⟨(((claim5_shape_detector_precedence (Json.obj [("k", Json.num ⟨1, 0⟩)])).1 _ rfl).2
      (by decide)).1 (by decide),
    (claim5_shape_detector_precedence (Json.arr [Json.num ⟨1, 0⟩])).2.1 (by decide) _ rfl,
    (claim5_shape_detector_precedence (Json.str "x")).2.2.1 (by decide) (by decide),
    ((claim5_shape_detector_precedence (Json.obj [("data", Json.arr [])])).1 _ rfl).1 []
      (by decide)⟩

/-! ## Helper lemmas: the flatteners -/

theorem objSet_fresh (out : List (String × Json)) (key : String) (v : Json)
    (h : ∀ p ∈ out, p.1 ≠ key) : objSet out key v = out ++ [(key, v)] := by
  induction out with
  | nil => rfl
  | cons e rest ih =>
    unfold objSet
    rw [if_neg (h e (by simp))]
    rw [ih (fun p hp => h p (by simp [hp]))]
    rfl

theorem flattenFold_errors (f : String → Json → Sum Json String)
    (fields : List (String × Json)) (init : List (String × Json) × List String) :
    (fields.foldl (flattenStep f) init).2 =
      init.2 ++ fields.filterMap (fun e => (f e.1 e.2).getRight?) := by
  induction fields generalizing init with
  | nil => simp
  | cons e rest ih =>
    rw [List.foldl_cons, ih]
    unfold flattenStep
    rcases hf : f e.1 e.2 with v | msg <;> simp [hf]

def flatValOf : Sum Json String → Json
  | Sum.inl v => v
  | Sum.inr _ => Json.str ""

theorem flattenFold_out (f : String → Json → Sum Json String)
    (fields : List (String × Json)) (init : List (String × Json) × List String)
    (hall : ∀ e ∈ fields, (f e.1 e.2).isLeft)
    (hfresh : ∀ e ∈ fields, ∀ p ∈ init.1, p.1 ≠ e.1)
    (hnd : (fields.map Prod.fst).Nodup) :
    (fields.foldl (flattenStep f) init).1 =
      init.1 ++ fields.map (fun e => (e.1, flatValOf (f e.1 e.2))) := by
  induction fields generalizing init with
  | nil => simp
  | cons e rest ih =>
    have hnd2 : e.1 ∉ rest.map Prod.fst ∧ (rest.map Prod.fst).Nodup := by
      rw [List.map_cons, List.nodup_cons] at hnd
      exact hnd
    rw [List.foldl_cons]
    rcases hf : f e.1 e.2 with v | msg
    · have hstep : flattenStep f init e = (objSet init.1 e.1 v, init.2) := by
        unfold flattenStep
        rw [hf]
      rw [hstep, objSet_fresh init.1 e.1 v (fun p hp => hfresh e (by simp) p hp)]
      rw [ih (init.1 ++ [(e.1, v)], init.2)
        (fun x hx => hall x (by simp [hx]))
        (fun x hx p hp => by
          rcases List.mem_append.mp hp with hp1 | hp2
          · exact hfresh x (by simp [hx]) p hp1
          · simp only [List.mem_singleton] at hp2
            subst hp2
            intro hc
            exact hnd2.1 (hc ▸ List.mem_map_of_mem Prod.fst hx))
        hnd2.2]
      simp [hf, flatValOf]
    · have := hall e (by simp)
      rw [hf] at this
      simp at this

theorem flattenRowField_isLeft (key : String) (v : Json) :
    (flattenRowField key v).isLeft = (isPrimitive v || isArrayOfPrimitives v) := by
  cases v
  case arr xs =>
    cases hA : isArrayOfPrimitives (Json.arr xs) <;>
      simp [flattenRowField, isPrimitive, allowArrayOfPrimitives, hA]
  all_goals rfl

theorem flattenRowField_inl (key : String) (v : Json)
    (h : (isPrimitive v || isArrayOfPrimitives v) = true) :
    flattenRowField key v = Sum.inl (if isPrimitive v then v else Json.str (jsonStringify v)) := by
  cases v
  case arr xs =>
    cases hA : isArrayOfPrimitives (Json.arr xs) <;>
      simp_all [flattenRowField, isPrimitive, allowArrayOfPrimitives]
  case obj fs => simp_all [isPrimitive, isArrayOfPrimitives]
  all_goals rfl

theorem flattenInnerField_isLeft (fullKey : String) (v : Json) :
    (flattenInnerField fullKey v).isLeft = (isPrimitive v || isArrayOfPrimitives v) := by
  cases v
  case arr xs =>
    cases hA : isArrayOfPrimitives (Json.arr xs) <;>
      simp [flattenInnerField, isPrimitive, allowArrayOfPrimitives, hA]
  all_goals rfl

theorem flattenInnerField_inl (fullKey : String) (v : Json)
    (h : (isPrimitive v || isArrayOfPrimitives v) = true) :
    flattenInnerField fullKey v =
      Sum.inl (if isPrimitive v then v else Json.str (jsonStringify v)) := by
  cases v
  case arr xs =>
    cases hA : isArrayOfPrimitives (Json.arr xs) <;>
      simp_all [flattenInnerField, isPrimitive, allowArrayOfPrimitives]
  case obj fs => simp_all [isPrimitive, isArrayOfPrimitives]
  all_goals rfl

theorem flattenRowField_inr (key : String) (v : Json) (msg : String)
    (h : flattenRowField key v = Sum.inr msg) :
    ∃ a b, msg = a ++ ("\"" ++ key ++ "\"") ++ b := by
  cases v
  case arr xs =>
    cases hA : isArrayOfPrimitives (Json.arr xs) <;>
      simp [flattenRowField, isPrimitive, allowArrayOfPrimitives, hA] at h
    refine ⟨"Unsupported array value at ",
      ". Only arrays of primitive values are supported.", ?_⟩
    rw [← h]
    simp only [rowArrayValueError]
    rw [show ("Unsupported array value at \"" : String)
        = "Unsupported array value at " ++ "\"" from by decide,
      show ("\". Only arrays of primitive values are supported." : String)
        = "\"" ++ ". Only arrays of primitive values are supported." from by decide]
    simp only [String.append_assoc]
  case obj fs =>
    simp [flattenRowField, isPrimitive] at h
    refine ⟨"Nested object at ",
      " is not supported in table rows. Flatten it first (e.g. use \"" ++ key ++
        ".field\" columns) or change your JSON shape.", ?_⟩
    rw [← h]
    simp only [rowNestedObjectError]
    rw [show ("Nested object at \"" : String) = "Nested object at " ++ "\"" from by decide,
      show ("\" is not supported in table rows. Flatten it first (e.g. use \"" : String)
        = "\"" ++ " is not supported in table rows. Flatten it first (e.g. use \"" from by decide]
    simp only [String.append_assoc]
  all_goals simp [flattenRowField, isPrimitive] at h

theorem flattenInnerField_inr (fullKey : String) (v : Json) (msg : String)
    (h : flattenInnerField fullKey v = Sum.inr msg) :
    ∃ a b, msg = a ++ ("\"" ++ fullKey ++ "\"") ++ b := by
  cases v
  case arr xs =>
    cases hA : isArrayOfPrimitives (Json.arr xs) <;>
      simp [flattenInnerField, isPrimitive, allowArrayOfPrimitives, hA] at h
    refine ⟨"Unsupported array value at ",
      ". Only arrays of primitive values are supported.", ?_⟩
    rw [← h]
    simp only [innerArrayValueError]
    rw [show ("Unsupported array value at \"" : String)
        = "Unsupported array value at " ++ "\"" from by decide,
      show ("\". Only arrays of primitive values are supported." : String)
        = "\"" ++ ". Only arrays of primitive values are supported." from by decide]
    simp only [String.append_assoc]
  case obj fs =>
    simp [flattenInnerField, isPrimitive] at h
    refine ⟨"Nested object too deep at ", ". Inner objects must be flat.", ?_⟩
    rw [← h]
    simp only [innerNestedObjectError]
    rw [show ("Nested object too deep at \"" : String)
        = "Nested object too deep at " ++ "\"" from by decide,
      show ("\". Inner objects must be flat." : String)
        = "\"" ++ ". Inner objects must be flat." from by decide]
    simp only [String.append_assoc]
  all_goals simp [flattenInnerField, isPrimitive] at h

/-- Claim C7: the flatteners copy primitive fields unchanged, serialize arrays
of primitives to a JSON array-literal string, and reject nested plain objects
and arrays containing non-primitives; errors are collected over all offending
fields (not fail-fast) and each error message names the offending key path in
quotes; flattening `{"a": {"b": 1}}` fails with an error string mentioning
`"a"`. -/
theorem claim7_flatteners (row : Json) (parentKey : String) :
    (isPlainObject row = false →
        flattenRowObject row = FlatResult.err [rowNotObjectError]
      ∧ flattenInnerObject row parentKey = FlatResult.err [innerNotObjectError parentKey])
  ∧ (∀ fields, row = Json.obj fields → (fields.map Prod.fst).Nodup →
      ((∀ e ∈ fields, (isPrimitive e.2 || isArrayOfPrimitives e.2) = true) →
          flattenRowObject row = FlatResult.ok (fields.map (fun e =>
            (e.1, if isPrimitive e.2 then e.2 else Json.str (jsonStringify e.2))))
        ∧ flattenInnerObject row parentKey = FlatResult.ok (fields.map (fun e =>
            (e.1, if isPrimitive e.2 then e.2 else Json.str (jsonStringify e.2)))))
      ∧ ((∃ e ∈ fields, (isPrimitive e.2 || isArrayOfPrimitives e.2) = false) →
          flattenRowObject row = FlatResult.err
              (fields.filterMap (fun e => (flattenRowField e.1 e.2).getRight?))
        ∧ flattenInnerObject row parentKey = FlatResult.err
              (fields.filterMap (fun e =>
                (flattenInnerField (parentKey ++ "." ++ e.1) e.2).getRight?))))
  ∧ (∀ key v msg, flattenRowField key v = Sum.inr msg →
        ∃ a b, msg = a ++ ("\"" ++ key ++ "\"") ++ b)
  ∧ (∀ fullKey v msg, flattenInnerField fullKey v = Sum.inr msg →
        ∃ a b, msg = a ++ ("\"" ++ fullKey ++ "\"") ++ b)
  ∧ flattenRowObject (Json.obj [("a", Json.obj [("b", Json.num ⟨1, 0⟩)])])
      = FlatResult.err [rowNestedObjectError "a"]
  ∧ (∃ a b, rowNestedObjectError "a" = a ++ "\"a\"" ++ b) := by
  refine ⟨?_, ?_, flattenRowField_inr, flattenInnerField_inr, by decide,
    ⟨"Nested object at ",
      " is not supported in table rows. Flatten it first (e.g. use \"a.field\" columns) or change your JSON shape.",
      by decide⟩⟩
  · intro hno
    cases row <;> simp_all [isPlainObject, flattenRowObject, flattenInnerObject]
  · rintro fields rfl hnd
    constructor
    · intro hall
      have hallR : ∀ e ∈ fields, (flattenRowField e.1 e.2).isLeft := by
        intro e he
        rw [flattenRowField_isLeft]
        exact hall e he
      have hallI : ∀ e ∈ fields,
          ((fun key value => flattenInnerField (parentKey ++ "." ++ key) value) e.1 e.2).isLeft := by
        intro e he
        simp only [flattenInnerField_isLeft]
        exact hall e he
      have herrR := flattenFold_errors flattenRowField fields ([], [])
      have herrI := flattenFold_errors
        (fun key value => flattenInnerField (parentKey ++ "." ++ key) value) fields ([], [])
      have hnilR : fields.filterMap (fun e => (flattenRowField e.1 e.2).getRight?) = [] := by
        rw [List.filterMap_eq_nil_iff]
        intro e he
        rcases hf : flattenRowField e.1 e.2 with v | m
        · rfl
        · have := hallR e he
          rw [hf] at this
          simp at this
      have hnilI : fields.filterMap
          (fun e => (flattenInnerField (parentKey ++ "." ++ e.1) e.2).getRight?) = [] := by
        rw [List.filterMap_eq_nil_iff]
        intro e he
        rcases hf : flattenInnerField (parentKey ++ "." ++ e.1) e.2 with v | m
        · rfl
        · have := hallI e he
          simp only [hf] at this
          simp at this
      have houtR := flattenFold_out flattenRowField fields ([], []) hallR (by simp) hnd
      have houtI := flattenFold_out
        (fun key value => flattenInnerField (parentKey ++ "." ++ key) value) fields ([], [])
        hallI (by simp) hnd
      have hmapR : fields.map (fun e => (e.1, flatValOf (flattenRowField e.1 e.2)))
          = fields.map (fun e =>
            (e.1, if isPrimitive e.2 then e.2 else Json.str (jsonStringify e.2))) := by
        apply List.map_congr_left
        intro e he
        rw [flattenRowField_inl e.1 e.2 (hall e he)]
        rfl
      have hmapI : fields.map (fun e =>
            (e.1, flatValOf ((fun key value =>
              flattenInnerField (parentKey ++ "." ++ key) value) e.1 e.2)))
          = fields.map (fun e =>
            (e.1, if isPrimitive e.2 then e.2 else Json.str (jsonStringify e.2))) := by
        apply List.map_congr_left
        intro e he
        simp only [flattenInnerField_inl (parentKey ++ "." ++ e.1) e.2 (hall e he)]
        rfl
      constructor
      · simp only [flattenRowObject]
        rw [if_neg (by rw [herrR, hnilR]; simp)]
        rw [houtR, hmapR]
        simp
      · simp only [flattenInnerObject]
        rw [if_neg (by rw [herrI, hnilI]; simp)]
        rw [houtI, hmapI]
        simp
    · rintro ⟨e0, he0, hbad⟩
      have herrR := flattenFold_errors flattenRowField fields ([], [])
      have herrI := flattenFold_errors
        (fun key value => flattenInnerField (parentKey ++ "." ++ key) value) fields ([], [])
      have hbadR : (flattenRowField e0.1 e0.2).getRight?.isSome := by
        rcases hf : flattenRowField e0.1 e0.2 with v | m
        · have := flattenRowField_isLeft e0.1 e0.2
          rw [hf, hbad] at this
          simp at this
        · simp
      have hbadI : (flattenInnerField (parentKey ++ "." ++ e0.1) e0.2).getRight?.isSome := by
        rcases hf : flattenInnerField (parentKey ++ "." ++ e0.1) e0.2 with v | m
        · have := flattenInnerField_isLeft (parentKey ++ "." ++ e0.1) e0.2
          rw [hf, hbad] at this
          simp at this
        · simp
      have hneR : fields.filterMap (fun e => (flattenRowField e.1 e.2).getRight?) ≠ [] := by
        rw [Ne, List.filterMap_eq_nil_iff]
        intro hc
        have := hc e0 he0
        rw [this] at hbadR
        simp at hbadR
      have hneI : fields.filterMap
          (fun e => (flattenInnerField (parentKey ++ "." ++ e.1) e.2).getRight?) ≠ [] := by
        rw [Ne, List.filterMap_eq_nil_iff]
        intro hc
        have := hc e0 he0
        rw [this] at hbadI
        simp at hbadI
      constructor
      · simp only [flattenRowObject]
        rw [if_pos (by rw [herrR]; simpa using hneR)]
        rw [herrR]
        simp
      · simp only [flattenInnerObject]
        rw [if_pos (by rw [herrI]; simpa using hneI)]
        rw [herrI]
        simp

/-- Witness for C7: the row `{"x": 1, "k": [1, 2]}` flattens successfully
with the array serialized to its JSON literal; the row `{"x": 1, "a": {"b": 1},
"c": [{}]}` fails with one collected error per offending field. -/
theorem claim7_flatteners_witness :
    flattenRowObject (Json.obj [("x", Json.num ⟨1, 0⟩), ("k", Json.arr [Json.num ⟨1, 0⟩, Json.num ⟨2, 0⟩])])
        = FlatResult.ok [("x", Json.num ⟨1, 0⟩), ("k", Json.str "[1,2]")] ∧
      flattenRowObject (Json.obj [("x", Json.num ⟨1, 0⟩), ("a", Json.obj [("b", Json.num ⟨1, 0⟩)]),
          ("c", Json.arr [Json.obj []])])
        = FlatResult.err [rowNestedObjectError "a", rowArrayValueError "c"] := by
  constructor
  · have h := (((claim7_flatteners
        (Json.obj [("x", Json.num ⟨1, 0⟩), ("k", Json.arr [Json.num ⟨1, 0⟩, Json.num ⟨2, 0⟩])])
        "p").2.1 _ rfl (by decide)).1 (by decide)).1
    rw [h]
    decide
  · have h := (((claim7_flatteners
        (Json.obj [("x", Json.num ⟨1, 0⟩), ("a", Json.obj [("b", Json.num ⟨1, 0⟩)]),
          ("c", Json.arr [Json.obj []])]) "p").2.1 _ rfl (by decide)).2
        ⟨("a", Json.obj [("b", Json.num ⟨1, 0⟩)]), by decide, by decide⟩).1
    rw [h]
    decide

/-! ## Helper lemmas: hint maps only grow -/

/-- `m2` extends `m1`: every present binding is kept unchanged and only
absent paths may gain a binding. -/
def TmExtends (m1 m2 : TypeMap) : Prop :=
  ∀ p, tmFind m2 p = tmFind m1 p ∨ (tmFind m1 p = none ∧ ∃ t, tmFind m2 p = some t)

theorem tmExtends_refl (m : TypeMap) : TmExtends m m := fun _ => Or.inl rfl

theorem tmExtends_trans {m1 m2 m3 : TypeMap} (h12 : TmExtends m1 m2)
    (h23 : TmExtends m2 m3) : TmExtends m1 m3 := by
  intro p
  rcases h23 p with h | ⟨h2n, t3, h3⟩
  · rcases h12 p with h' | ⟨h1n, t2, h2⟩
    · exact Or.inl (h.trans h')
    · exact Or.inr ⟨h1n, t2, h ▸ h2⟩
  · rcases h12 p with h' | ⟨h1n, t2, h2⟩
    · exact Or.inr ⟨h' ▸ h2n, t3, h3⟩
    · rw [h2] at h2n
      exact absurd h2n (by simp)

theorem tmExtends_setIfAbsent (m : TypeMap) (p : String) (t : JType) :
    TmExtends m (tmSetIfAbsent m p t) := by
  intro q
  unfold tmSetIfAbsent
  rcases hf : tmFind m p with _ | tp
  · by_cases hq : p = q
    · subst hq
      refine Or.inr ⟨hf, t, ?_⟩
      unfold tmFind at hf ⊢
      rw [List.find?_append]
      rcases hm : m.find? (fun e => e.1 == p) with _ | e
      · rw [hm]
        simp
      · rw [hm] at hf
        simp at hf
    · refine Or.inl ?_
      unfold tmFind
      rw [List.find?_append]
      rcases hm : m.find? (fun e => e.1 == q) with _ | e
      · rw [hm]
        simp [hq]
      · rw [hm]
        simp
  · exact Or.inl rfl

theorem tmExtends_some {m1 m2 : TypeMap} (h : TmExtends m1 m2) (p : String) (t : JType)
    (hp : tmFind m1 p = some t) : tmFind m2 p = some t := by
  rcases h p with he | ⟨hn, _⟩
  · rw [he, hp]
  · rw [hp] at hn
    exact absurd hn (by simp)

theorem foldl_tm_extends {α β : Type} (f : β → α → β) (tmOf : β → TypeMap)
    (hstep : ∀ st a, TmExtends (tmOf st) (tmOf (f st a))) (l : List α) (st : β) :
    TmExtends (tmOf st) (tmOf (l.foldl f st)) := by
  induction l generalizing st with
  | nil => exact tmExtends_refl _
  | cons a rest ih => exact tmExtends_trans (hstep st a) (ih (f st a))

theorem arrObjStepF_extends (i : Nat) (row : List Cell)
    (st : List (String × Json) × Bool × TypeMap) (hc : Nat × String) :
    TmExtends st.2.2 (arrObjStepF i row st hc).2.2 := by
  simp only [arrObjStepF]
  split_ifs <;> exact tmExtends_setIfAbsent _ _ _

theorem wrapStepF_extends (i : Nat) (row : List Cell)
    (st : List (String × Json) × Bool × TypeMap) (hc : Nat × String) :
    TmExtends st.2.2 (wrapStepF i row st hc).2.2 := by
  simp only [wrapStepF]
  exact tmExtends_setIfAbsent _ _ _

theorem ooStepF_extends (headers : List String) (kci : Option Nat) (key : String)
    (row : List Cell) (st : List (String × Json) × TypeMap) (fc : Nat × String) :
    TmExtends st.2 (ooStepF headers kci key row st fc).2 := by
  simp only [ooStepF]
  exact tmExtends_setIfAbsent _ _ _

theorem csvStepF_extends (r : Nat) (st : List String × TypeMap) (cp : Nat × Cell) :
    TmExtends st.2 (csvStepF r st cp).2 := by
  simp only [csvStepF]
  split_ifs
  · exact tmExtends_refl _
  · exact tmExtends_setIfAbsent _ _ _

theorem arrObjRowStep_extends (headers : List String) (i : Nat) (row : List Cell)
    (tm : TypeMap) : TmExtends tm (arrObjRowStep headers i row tm).2.2 :=
  foldl_tm_extends (arrObjStepF i row) (·.2.2) (arrObjStepF_extends i row) headers.enum
    ([], false, tm)

theorem wrapRowStep_extends (headers : List String) (i : Nat) (row : List Cell)
    (tm : TypeMap) : TmExtends tm (wrapRowStep headers i row tm).2.2 :=
  foldl_tm_extends (wrapStepF i row) (·.2.2) (wrapStepF_extends i row) headers.enum
    ([], false, tm)

theorem ooRowStep_extends (headers fieldHeaders : List String) (kci : Option Nat)
    (key : String) (row : List Cell) (tm : TypeMap) :
    TmExtends tm (ooRowStep headers fieldHeaders kci key row tm).2 :=
  foldl_tm_extends (ooStepF headers kci key row) (·.2) (ooStepF_extends headers kci key row)
    fieldHeaders.enum ([], tm)

theorem csvRowStep_extends (r : Nat) (row : List Cell) (tm : TypeMap) :
    TmExtends tm (csvRowStep r row tm).2 :=
  foldl_tm_extends (csvStepF r) (·.2) (csvStepF_extends r) row.enum ([], tm)

theorem arrayLoop_extends (headers : List String) (primMode : Bool)
    (rows : List (List Cell)) (i : Nat) (tm : TypeMap) :
    TmExtends tm (arrayLoop headers primMode rows i tm).2 := by
  induction rows generalizing i tm with
  | nil => exact tmExtends_refl _
  | cons row rest ih =>
    simp only [arrayLoop]
    split_ifs
    all_goals dsimp only
    · exact tmExtends_trans (tmExtends_setIfAbsent _ _ _) (ih _ _)
    · exact tmExtends_trans (tmExtends_setIfAbsent _ _ _) (ih _ _)
    · exact tmExtends_trans (tmExtends_setIfAbsent _ _ _) (ih _ _)
    · exact tmExtends_trans (tmExtends_setIfAbsent _ _ _) (ih _ _)
    · exact tmExtends_trans (arrObjRowStep_extends headers i row tm) (ih _ _)
    · exact tmExtends_trans (arrObjRowStep_extends headers i row tm) (ih _ _)

theorem wrappedLoop_extends (headers : List String) (rows : List (List Cell)) (i : Nat)
    (tm : TypeMap) : TmExtends tm (wrappedLoop headers rows i tm).2 := by
  induction rows generalizing i tm with
  | nil => exact tmExtends_refl _
  | cons row rest ih =>
    simp only [wrappedLoop]
    exact tmExtends_trans (wrapRowStep_extends headers i row tm) (ih _ _)

theorem ooLoop_extends (headers fieldHeaders : List String) (kci : Option Nat)
    (rows : List (List Cell)) (out : List (String × Json)) (tm : TypeMap) :
    TmExtends tm (ooLoop headers fieldHeaders kci rows out tm).2 := by
  induction rows generalizing out tm with
  | nil => exact tmExtends_refl _
  | cons row rest ih =>
    simp only [ooLoop]
    split_ifs
    · exact ih _ _
    · exact tmExtends_trans (ooRowStep_extends headers fieldHeaders kci _ row tm) (ih _ _)

theorem csvLoop_extends (rows : List (List Cell)) (r : Nat) (tm : TypeMap) :
    TmExtends tm (csvLoop rows r tm).2 := by
  induction rows generalizing r tm with
  | nil => exact tmExtends_refl _
  | cons row rest ih =>
    simp only [csvLoop]
    exact tmExtends_trans (csvRowStep_extends r row tm) (ih _ _)

theorem kvLoop_extends (rows : List (List Cell)) (result : List (String × Json))
    (tm : TypeMap) : TmExtends tm (kvLoop rows result tm).2 := by
  induction rows generalizing result tm with
  | nil => exact tmExtends_refl _
  | cons row rest ih =>
    simp only [kvLoop]
    split_ifs
    · exact ih _ _
    · exact tmExtends_trans (tmExtends_setIfAbsent _ _ _) (ih _ _)

theorem sheetToText_extends (sheets : List Sheet) (tm : TypeMap) (dk : DataKind)
    (w : Option Wrapper) : TmExtends tm (sheetToText sheets tm dk w).nextTypeMap := by
  cases dk
  · exact arrayLoop_extends _ _ _ _ _
  · exact wrappedLoop_extends _ _ _ _
  · exact ooLoop_extends _ _ _ _ _ _
  · exact csvLoop_extends _ _ _
  · exact tmExtends_refl _
  · exact kvLoop_extends _ _ _
  · exact kvLoop_extends _ _ _

/-- Claim C8: the type-hint map is append-only across serialization — every
path bound in the input map keeps exactly its binding in the returned map,
and the returned map differs from the input only by possibly added paths. -/
theorem claim8_typemap_append_only (sheets : List Sheet) (tm : TypeMap) (dk : DataKind)
    (w : Option Wrapper) :
    (∀ p t, tmFind tm p = some t →
        tmFind (sheetToText sheets tm dk w).nextTypeMap p = some t)
  ∧ ∀ p, tmFind (sheetToText sheets tm dk w).nextTypeMap p = tmFind tm p
      ∨ (tmFind tm p = none ∧
          ∃ t, tmFind (sheetToText sheets tm dk w).nextTypeMap p = some t) :=
  ⟨fun p t hp => tmExtends_some (sheetToText_extends sheets tm dk w) p t hp,
    sheetToText_extends sheets tm dk w⟩

/-- The one-row key/value grid used by the C8 witness: key `a`, value `xyz`. -/
def c8sheet : Sheet :=
  { name := "S", celldata := [],
    data := [[Cell.vm (some (JsPrim.pstr "a")) (some (JsPrim.pstr "a")),
      Cell.vm (some (JsPrim.pstr "xyz")) (some (JsPrim.pstr "xyz"))]] }

/-- Witness for C8: a key/value grid whose one key `a` carries hint `number`
in the input map; the output map still binds `a` to `number` even though the
cell now reads `xyz`. -/
theorem claim8_typemap_append_only_witness :
    tmFind [("a", JType.number)] "a" = some JType.number ∧
      tmFind (sheetToText [c8sheet] [("a", JType.number)]
          DataKind.dkObject none).nextTypeMap "a" = some JType.number :=
  ⟨by decide,
    (claim8_typemap_append_only [c8sheet] [("a", JType.number)]
        DataKind.dkObject none).1 "a" JType.number (by decide)⟩

/-! ## Claim C3 -/

theorem tmFind_setIfAbsent_absent (m : TypeMap) (p : String) (t : JType)
    (h : tmFind m p = none) : tmFind (tmSetIfAbsent m p t) p = some t := by
  have hf : m.find? (fun e => e.1 == p) = none := by
    unfold tmFind at h
    rcases hm : m.find? (fun e => e.1 == p) with _ | e
    · exact hm
    · rw [hm] at h
      simp at h
  unfold tmSetIfAbsent
  rw [h]
  unfold tmFind
  rw [List.find?_append, hf]
  simp

/-- The fresh key/value grid used to refute C3: one row, key `a`, empty
value cell. -/
def c3sheets : List Sheet := (createSheetFromObject [("a", Json.str "")]).1

/-- Counterexample to C3: on a freshly built key/value grid whose only value
cell is empty, the path `a` is absent from the (empty) input type map and its
cell text is empty, yet after one serialize pass the returned type map binds
`a` — to `string` — instead of leaving it absent as the claim states. -/
theorem claim3_counterexample :
    tmFind ([] : TypeMap) "a" = none ∧
      getCellText (cellAt ((celldataToMatrixW (c3sheets.headD {})).getD 0 []) 1) = "" ∧
      tmFind (sheetToText c3sheets [] DataKind.dkObject none).nextTypeMap "a"
        = some JType.string := by
  refine ⟨rfl, by decide, by decide⟩

/-- Claim C3, amended: a serialize pass that sees an empty cell at a path
absent from the input map does not leave the path absent — it records the
placeholder hint `string` for it (shown here for the key/value branch); and
the placeholder is harmless because `castWithType` under hint `string`
behaves exactly as under no hint, so a later non-empty entry at that path
still goes through free-form inference. -/
theorem claim3_amended_placeholder_hint :
    (∀ raw, castWithType raw (some JType.string) = castWithType raw none)
  ∧ ∀ (row : List Cell) (rest : List (List Cell)) (result : List (String × Json))
      (tm : TypeMap) (key : String),
      key = getCellText (cellAt row 0) → key ≠ "" → tmFind tm key = none →
      getCellText (cellAt row 1) = "" →
      tmFind (kvLoop (row :: rest) result tm).2 key = some JType.string := by
  constructor
  · intro raw
    rfl
  · intro row rest result tm key hkey hne habs hempty
    simp only [kvLoop, ← hkey, hempty]
    rw [if_neg hne]
    have hcast : castWithType "" (tmFind tm key) = ⟨Json.str "", JType.string⟩ := by
      rw [habs]
      decide
    rw [hcast]
    exact tmExtends_some (kvLoop_extends rest _ _) key JType.string
      (tmFind_setIfAbsent_absent tm key JType.string habs)

/-- Witness for C3's amended statement at a concrete one-row grid. -/
theorem claim3_amended_placeholder_hint_witness :
    tmFind ([] : TypeMap) "a" = none ∧
      tmFind (kvLoop [[Cell.vm (some (JsPrim.pstr "a")) (some (JsPrim.pstr "a")),
          Cell.vm (some (JsPrim.pstr "")) (some (JsPrim.pstr ""))]] [] []).2 "a"
        = some JType.string :=
  ⟨rfl,
    claim3_amended_placeholder_hint.2
      [Cell.vm (some (JsPrim.pstr "a")) (some (JsPrim.pstr "a")),
        Cell.vm (some (JsPrim.pstr "")) (some (JsPrim.pstr ""))]
      [] [] [] "a" (by decide) (by decide) rfl (by decide)⟩

/-! ## Claim C10 -/

theorem enumFrom_append_one {α : Type} (init : List α) (a : α) (n : Nat) :
    (init ++ [a]).enumFrom n = init.enumFrom n ++ [(n + init.length, a)] := by
  induction init generalizing n with
  | nil => simp
  | cons x t ih =>
    simp only [List.cons_append, List.enumFrom_cons, ih (n + 1), List.length_cons]
    have hn : n + 1 + t.length = n + (t.length + 1) := by omega
    rw [hn]

theorem fst_lt_of_mem_enumFrom {α : Type} {q : Nat × α} {n : Nat} {l : List α}
    (h : q ∈ l.enumFrom n) : q.1 < n + l.length := by
  induction l generalizing n with
  | nil => simp at h
  | cons x t ih =>
    rw [List.enumFrom_cons] at h
    rcases List.mem_cons.mp h with rfl | h
    · simp
    · have := ih h
      simp only [List.length_cons]
      omega

theorem map_snd_comp_enumFrom {α β : Type} (g : α → β) (l : List α) (n : Nat) :
    (l.enumFrom n).map (fun p => g p.2) = l.map g := by
  induction l generalizing n with
  | nil => rfl
  | cons x t ih => simp only [List.enumFrom_cons, List.map_cons, ih]

theorem splitOnCharL_ne_nil (c : Char) (l : List Char) : splitOnCharL c l ≠ [] := by
  induction l with
  | nil => simp [splitOnCharL]
  | cons x t ih =>
    unfold splitOnCharL
    rcases hs : splitOnCharL c t with _ | ⟨h, r⟩
    · simp
    · split_ifs <;> simp

theorem splitLinesJs_ne_nil (text : String) : splitLinesJs text ≠ [] := by
  unfold splitLinesJs
  intro h
  exact splitOnCharL_ne_nil '\n' text.toList (List.map_eq_nil_iff.mp h)

/-- Claim C10: `parseCsv` trims every cell token (no cell of the initial CSV
grid carries surrounding whitespace), and it drops the final source line
exactly when it is the last line and blank after trimming — interior blank
lines survive, and a file ending in a single trailing newline contributes no
extra empty row. -/
theorem claim10_parseCsv (text : String) :
    (∀ row ∈ parseCsvMatrix text, ∀ cell ∈ row, jsTrim cell = cell)
  ∧ ∀ init last, splitLinesJs text = init ++ [last] →
      parseCsvMatrix text =
        (if jsTrim last = "" then init else init ++ [last]).map
          (fun line => (splitOnCharL ',' line.toList).map (fun cl => jsTrim (String.mk cl))) := by
  constructor
  · intro row hrow cell hcell
    unfold parseCsvMatrix at hrow
    rcases List.mem_map.mp hrow with ⟨q, _, hq⟩
    rw [← hq] at hcell
    rcases List.mem_map.mp hcell with ⟨cl, _, hcl⟩
    rw [← hcl]
    exact jsTrim_idem _
  · intro init last hsplit
    unfold parseCsvMatrix
    rw [hsplit]
    dsimp only
    have hlen : (init ++ [last]).length - 1 = init.length := by simp
    rw [hlen]
    have henum : (init ++ [last]).enum = init.enumFrom 0 ++ [(init.length, last)] := by
      rw [List.enum, enumFrom_append_one]
      simp
    rw [henum, List.filter_append]
    have hkeep : (init.enumFrom 0).filter
        (fun p => decide ¬(p.1 = init.length ∧ jsTrim p.2 = "")) = init.enumFrom 0 := by
      rw [List.filter_eq_self]
      intro q hq
      have hlt := fst_lt_of_mem_enumFrom hq
      simp only [Nat.zero_add] at hlt
      simp only [decide_eq_true_eq]
      intro hc
      exact absurd hc.1 (by omega)
    rw [hkeep]
    by_cases hb : jsTrim last = ""
    · rw [if_pos hb]
      have hlast : ([((init.length : Nat), last)]).filter
          (fun p => decide ¬(p.1 = init.length ∧ jsTrim p.2 = "")) = [] := by
        simp [hb]
      rw [hlast, List.append_nil]
      exact map_snd_comp_enumFrom
        (fun line => (splitOnCharL ',' line.toList).map (fun cl => jsTrim (String.mk cl))) init 0
    · rw [if_neg hb]
      have hlast : ([((init.length : Nat), last)]).filter
          (fun p => decide ¬(p.1 = init.length ∧ jsTrim p.2 = "")) =
          [((init.length : Nat), last)] := by
        simp [hb]
      rw [hlast, List.map_append, List.map_append]
      congr 1
      exact map_snd_comp_enumFrom
        (fun line => (splitOnCharL ',' line.toList).map (fun cl => jsTrim (String.mk cl))) init 0

/-- Witness for C10 at the concrete file `"a, b\n1,2\n"`: tokens are trimmed
and the blank final line (after the trailing newline) is dropped. -/
theorem claim10_parseCsv_witness :
    splitLinesJs "a, b\n1,2\n" = ["a, b", "1,2"] ++ [""] ∧
      parseCsvMatrix "a, b\n1,2\n" = [["a", "b"], ["1", "2"]] := by
  constructor
  · decide
  · rw [(claim10_parseCsv "a, b\n1,2\n").2 ["a, b", "1,2"] "" (by decide)]
    decide

/-! ## Claim C6 -/

theorem objLookup_objSet_ne (m : List (String × Json)) (k h : String) (v : Json)
    (hne : k ≠ h) : objLookup (objSet m k v) h = objLookup m h := by
  induction m with
  | nil =>
    unfold objSet objLookup
    simp [hne]
  | cons e rest ih =>
    unfold objSet
    by_cases he : e.1 = k
    · rw [if_pos he]
      unfold objLookup
      have h1 : ((k, v).1 == h) = false := by simp [hne]
      have h2 : (e.1 == h) = false := by simp [he ▸ hne]
      simp only [List.find?_cons, h1, h2]
    · rw [if_neg he]
      unfold objLookup at ih ⊢
      rcases hbe : (e.1 == h) with _ | _
      · simp only [List.find?_cons, hbe]
        exact ih
      · simp only [List.find?_cons, hbe]

theorem objLookup_objSet_self (m : List (String × Json)) (k : String) (v : Json) :
    objLookup (objSet m k v) k = some v := by
  induction m with
  | nil =>
    unfold objSet objLookup
    simp
  | cons e rest ih =>
    unfold objSet
    by_cases he : e.1 = k
    · rw [if_pos he]
      unfold objLookup
      simp
    · rw [if_neg he]
      unfold objLookup at ih ⊢
      have hbe : (e.1 == k) = false := by simp [he]
      simp only [List.find?_cons, hbe]
      exact ih

theorem castWithType_empty (hint : Option JType) :
    castWithType "" hint = ⟨Json.str "", JType.string⟩ := by
  unfold castWithType
  rfl

theorem splitOnCharL_no_sep (c : Char) (l : List Char) (h : ¬ c ∈ l) :
    splitOnCharL c l = [l] := by
  induction l with
  | nil => rfl
  | cons x t ih =>
    have hx : ¬ x = c := fun hxc => h (by rw [← hxc]; exact List.mem_cons_self x t)
    have ht : ¬ c ∈ t := fun hc => h (List.mem_cons_of_mem x hc)
    simp [splitOnCharL, ih ht, hx]

theorem mk_toList (s : String) : String.mk s.toList = s := rfl

theorem setNestedValue_dotfree (target : List (String × Json)) (h : String) (v : Json)
    (hne : h ≠ "") (hdf : ¬ '.' ∈ h.toList) :
    setNestedValue target h v = objSet target h v := by
  unfold setNestedValue
  rw [splitOnCharL_no_sep '.' h.toList hdf]
  simp only [List.map_cons, List.map_nil, mk_toList]
  rw [List.filter_cons_of_pos (by simp [hne])]
  rfl

theorem arrObjFold_hasValue_false (i : Nat) (row : List Cell) (l : List (Nat × String))
    (st : List (String × Json) × Bool × TypeMap)
    (h : ∀ hc ∈ l, getCellText (cellAt row hc.1) = "") :
    (l.foldl (arrObjStepF i row) st).2.1 = st.2.1 := by
  induction l generalizing st with
  | nil => rfl
  | cons hc rest ih =>
    rw [List.foldl_cons]
    have hstep : (arrObjStepF i row st hc).2.1 = st.2.1 := by
      unfold arrObjStepF
      rw [h hc (by simp)]
      simp
    rw [ih _ (fun x hx => h x (by simp [hx])), hstep]

theorem wrapFold_hasValue_false (i : Nat) (row : List Cell) (l : List (Nat × String))
    (st : List (String × Json) × Bool × TypeMap)
    (h : ∀ hc ∈ l, getCellText (cellAt row hc.1) = "") :
    (l.foldl (wrapStepF i row) st).2.1 = st.2.1 := by
  induction l generalizing st with
  | nil => rfl
  | cons hc rest ih =>
    rw [List.foldl_cons]
    have hstep : (wrapStepF i row st hc).2.1 = st.2.1 := by
      unfold wrapStepF
      rw [h hc (by simp)]
      simp
    rw [ih _ (fun x hx => h x (by simp [hx])), hstep]

theorem arrObjFold_lookup_none (i : Nat) (row : List Cell) (h : String)
    (l : List (Nat × String)) (st : List (String × Json) × Bool × TypeMap)
    (hemp : ∀ hc ∈ l, hc.2 = h → getCellText (cellAt row hc.1) = "")
    (hst : objLookup st.1 h = none) :
    objLookup ((l.foldl (arrObjStepF i row) st).1) h = none := by
  induction l generalizing st with
  | nil => exact hst
  | cons hc rest ih =>
    rw [List.foldl_cons]
    refine ih _ (fun x hx hxh => hemp x (by simp [hx]) hxh) ?_
    unfold arrObjStepF
    by_cases hr : getCellText (cellAt row hc.1) ≠ ""
    · rw [if_pos hr]
      have hne : hc.2 ≠ h := fun hh => hr (hemp hc (by simp) hh)
      simpa [objLookup_objSet_ne st.1 hc.2 h _ hne] using hst
    · rw [if_neg hr]
      exact hst

theorem wrapFold_preserve_lookup (i : Nat) (row : List Cell) (h : String)
    (l : List (Nat × String)) (st : List (String × Json) × Bool × TypeMap)
    (hne : ∀ hc ∈ l, hc.2 ≠ h)
    (hdf : ∀ hc ∈ l, hc.2 ≠ "" ∧ ¬ '.' ∈ hc.2.toList) :
    objLookup ((l.foldl (wrapStepF i row) st).1) h = objLookup st.1 h := by
  induction l generalizing st with
  | nil => rfl
  | cons hc rest ih =>
    rw [List.foldl_cons]
    rw [ih _ (fun x hx => hne x (by simp [hx])) (fun x hx => hdf x (by simp [hx]))]
    simp only [wrapStepF]
    rw [setNestedValue_dotfree st.1 hc.2 _ (hdf hc (by simp)).1 (hdf hc (by simp)).2]
    exact objLookup_objSet_ne st.1 hc.2 h _ (hne hc (by simp))

theorem wrapFold_lookup (i : Nat) (row : List Cell) (l : List (Nat × String))
    (st : List (String × Json) × Bool × TypeMap)
    (hdf : ∀ hc ∈ l, hc.2 ≠ "" ∧ ¬ '.' ∈ hc.2.toList)
    (hnd : (l.map Prod.snd).Nodup) (c : Nat) (h : String) (hmem : (c, h) ∈ l) :
    ∃ v, objLookup ((l.foldl (wrapStepF i row) st).1) h = some v ∧
      (getCellText (cellAt row c) = "" → v = Json.str "") := by
  induction l generalizing st with
  | nil => simp at hmem
  | cons hc rest ih =>
    have hnd2 : hc.2 ∉ rest.map Prod.snd ∧ (rest.map Prod.snd).Nodup := by
      rw [List.map_cons, List.nodup_cons] at hnd
      exact hnd
    rw [List.foldl_cons]
    rcases List.mem_cons.mp hmem with rfl | hrest
    · refine ⟨(castWithType (getCellText (cellAt row c))
        (tmFind st.2.2 (rowPath i h))).casted, ?_, ?_⟩
      · rw [wrapFold_preserve_lookup i row h rest _
          (by
            intro x hx hxh
            exact hnd2.1 (List.mem_map.mpr ⟨x, hx, hxh⟩))
          (fun x hx => hdf x (by simp [hx]))]
        simp only [wrapStepF]
        rw [setNestedValue_dotfree st.1 h _ (hdf (c, h) (by simp)).1 (hdf (c, h) (by simp)).2]
        exact objLookup_objSet_self st.1 h _
      · intro hempty
        rw [hempty, castWithType_empty]
    · exact ih _ (fun x hx => hdf x (by simp [hx])) hnd2.2 hrest

/-- A plain text cell, as the webview stores a string typed into the grid:
both `v` and `m` hold the string. -/
def textCell (s : String) : Cell := Cell.vm (some (JsPrim.pstr s)) (some (JsPrim.pstr s))

/-- A `wrappedArray` grid whose header row contains the dotted header `"a.b"`:
row 0 is the header row, row 1 has an empty cell under `"a.b"` and `"1"` under
`"x"`. -/
def c6sheet : Sheet :=
  { name := "S", celldata := [],
    data := [[textCell "a.b", textCell "x"], [Cell.empty, textCell "1"]] }

/-- C6 (counterexample): in the `wrappedArray` branch an emitted row does NOT
contain every header as a key.  A dotted header such as `"a.b"` is expanded by
`setNestedValue` into a nested object `\x7b"a": \x7b"b": …\x7d\x7d`: the emitted
row object has key `"a"` (holding `\x7b"b": ""\x7d`), and looking up the literal
header `"a.b"` finds nothing. -/
theorem claim6_counterexample :
    headersOf (celldataToMatrixW c6sheet) = ["a.b", "x"] ∧
    (sheetToText [c6sheet] [] DataKind.dkWrappedArray none).outJson =
      some (Json.obj [("data", Json.arr
        [Json.obj [("a", Json.obj [("b", Json.str "")]), ("x", Json.num ⟨1, 0⟩)]])]) ∧
    objLookup [("a", Json.obj [("b", Json.str "")]), ("x", Json.num ⟨1, 0⟩)] "a.b" = none := by
  exact ⟨by decide, by decide, by decide⟩

/-- C6 (amended): blank-row rules of the `array` and `wrappedArray` branches.
(1) In the `array` branch (object mode) a row whose every header cell has empty
text contributes nothing to the output list: the loop on `row :: rest` returns
the same list as the loop on `rest` alone.  (2) In an `array` row object, a
header whose cells are all empty at that header's columns is omitted entirely.
(3) In the `wrappedArray` branch a fully blank row likewise contributes
nothing.  (4) In a `wrappedArray` row object, every NON-EMPTY, DOT-FREE header
(headers assumed distinct) is present as a key, and when its cell text is empty
its value is the empty string `""`; dotted headers are instead expanded into
nested objects (see the counterexample). -/
theorem claim6_amended_blank_row_rules :
    (∀ (headers : List String) (row : List Cell) (rest : List (List Cell)) (i : Nat)
        (tm : TypeMap),
        (∀ c < headers.length, getCellText (cellAt row c) = "") →
        (arrayLoop headers false (row :: rest) i tm).1 =
          (arrayLoop headers false rest (i + 1) (arrObjRowStep headers i row tm).2.2).1) ∧
    (∀ (headers : List String) (row : List Cell) (i : Nat) (tm : TypeMap) (h : String),
        (∀ c < headers.length, headers[c]? = some h → getCellText (cellAt row c) = "") →
        objLookup (arrObjRowStep headers i row tm).1 h = none) ∧
    (∀ (headers : List String) (row : List Cell) (rest : List (List Cell)) (i : Nat)
        (tm : TypeMap),
        (∀ c < headers.length, getCellText (cellAt row c) = "") →
        (wrappedLoop headers (row :: rest) i tm).1 =
          (wrappedLoop headers rest (i + 1) (wrapRowStep headers i row tm).2.2).1) ∧
    (∀ (headers : List String) (row : List Cell) (i : Nat) (tm : TypeMap),
        headers.Nodup → (∀ h ∈ headers, h ≠ "" ∧ ¬ '.' ∈ h.toList) →
        ∀ c h, headers[c]? = some h →
          ∃ v, objLookup (wrapRowStep headers i row tm).1 h = some v ∧
            (getCellText (cellAt row c) = "" → v = Json.str "")) := by
  refine ⟨?_, ?_, ?_, ?_⟩
  · intro headers row rest i tm hblank
    have hv : (arrObjRowStep headers i row tm).2.1 = false := by
      unfold arrObjRowStep
      exact arrObjFold_hasValue_false i row headers.enum ([], false, tm)
        (fun hc hmem => hblank hc.1 (by simpa using fst_lt_of_mem_enumFrom hmem))
    simp only [arrayLoop, hv, Bool.false_eq_true, if_false]
  · intro headers row i tm h hemp
    unfold arrObjRowStep
    refine arrObjFold_lookup_none i row h headers.enum ([], false, tm) ?_ rfl
    intro hc hmem hh
    have hg : headers[hc.1]? = some hc.2 := List.mem_enum_iff_getElem?.mp hmem
    have hlt : hc.1 < headers.length := by simpa using fst_lt_of_mem_enumFrom hmem
    exact hemp hc.1 hlt (hh ▸ hg)
  · intro headers row rest i tm hblank
    have hv : (wrapRowStep headers i row tm).2.1 = false := by
      unfold wrapRowStep
      exact wrapFold_hasValue_false i row headers.enum ([], false, tm)
        (fun hc hmem => hblank hc.1 (by simpa using fst_lt_of_mem_enumFrom hmem))
    simp only [wrappedLoop, hv, Bool.false_eq_true, if_false]
  · intro headers row i tm hnd hdf c h hch
    unfold wrapRowStep
    refine wrapFold_lookup i row headers.enum ([], false, tm) ?_ ?_ c h ?_
    · intro hc hmem
      exact hdf hc.2 (List.getElem?_mem (List.mem_enum_iff_getElem?.mp hmem))
    · have he : headers.enum.map Prod.snd = headers := List.enumFrom_map_snd 0 headers
      rw [he]; exact hnd
    · exact List.mem_enum_iff_getElem?.mpr hch

/-- Witness for C6 (amended): concrete instances of all four conjuncts.  A
blank row under header `"h"` drops out of both loops, the header `"h"` is
absent from the `array` row object, and in the `wrappedArray` branch the
dot-free header `"k"` over an entirely missing row yields the key `"k"`
bound to `""`. -/
theorem claim6_amended_blank_row_rules_witness :
    ((arrayLoop ["h"] false [[textCell ""], [textCell "v"]] 0 []).1 =
      (arrayLoop ["h"] false [[textCell "v"]] 1 (arrObjRowStep ["h"] 0 [textCell ""] []).2.2).1) ∧
    objLookup (arrObjRowStep ["h"] 0 [textCell ""] []).1 "h" = none ∧
    ((wrappedLoop ["h"] [[textCell ""], [textCell "v"]] 0 []).1 =
      (wrappedLoop ["h"] [[textCell "v"]] 1 (wrapRowStep ["h"] 0 [textCell ""] []).2.2).1) ∧
    objLookup (wrapRowStep ["k"] 0 [] []).1 "k" = some (Json.str "") := by
  refine ⟨?_, ?_, ?_, ?_⟩
  · exact claim6_amended_blank_row_rules.1 ["h"] [textCell ""] [[textCell "v"]] 0 []
      (by decide)
  · exact claim6_amended_blank_row_rules.2.1 ["h"] [textCell ""] 0 [] "h" (by decide)
  · exact claim6_amended_blank_row_rules.2.2.1 ["h"] [textCell ""] [[textCell "v"]] 0 []
      (by decide)
  · obtain ⟨v, hv, he⟩ := claim6_amended_blank_row_rules.2.2.2 ["k"] [] 0 []
      (by decide) (by decide) 0 "k" (by decide)
    rw [hv, he (by decide)]

/-- C1 (code bug): at load time no JSON shape seeds the type-hint map.  The
document `\x7b"a": "42"\x7d` is accepted as `objectKV`, yet the payload built
for it carries an empty `typeMap` — the leaf path `"a"` has no hint at all —
while the CSV branch does seed (`"0,0" : string` for a one-cell CSV).
Consequently serializing the freshly built grid with the payload's own map
re-infers the cell `"42"` as a number instead of casting it back to its
original string type. -/
theorem claim1_load_typemap_not_seeded :
    validateAndExtract (Json.obj [("a", Json.str "42")]) =
      Extracted.objectKV [("a", Json.str "42")] ∧
    (toSheetPayloadFromContent (Content.json (Json.obj [("a", Json.str "42")]))).map
      (fun p => p.typeMap) = Except.ok [] ∧
    (toSheetPayloadFromContent (Content.json (Json.obj [("a", Json.str "42")]))).map
      (fun p => tmFind p.typeMap "a") = Except.ok none ∧
    (toSheetPayloadFromContent (Content.csv [["a"]] "a")).map
      (fun p => p.typeMap) = Except.ok [("0,0", JType.string)] ∧
    (toSheetPayloadFromContent (Content.json (Json.obj [("a", Json.str "42")]))).map
      (fun p => (sheetToText p.sheets p.typeMap p.dataKind p.wrapper).outJson)
      = Except.ok (some (Json.obj [("a", Json.num ⟨42, 0⟩)])) := by
  exact ⟨by decide, by decide, by decide, by decide, by decide⟩

/-! ## Helper lemmas: matrix replay (the load-time grid rebuild) -/

theorem set_append_cons {α : Type} (l : List α) (x y : α) (t : List α) :
    (l ++ x :: t).set l.length y = l ++ y :: t := by
  induction l with
  | nil => rfl
  | cons a r ih => simp only [List.cons_append, List.length_cons, List.set_cons_succ, ih]

theorem getElem?_append_len {α : Type} (l : List α) (x : α) (t : List α) :
    (l ++ x :: t)[l.length]? = some x := by
  rw [List.getElem?_append_right (Nat.le_refl _)]
  simp

theorem getD_append_len {α : Type} (l : List α) (x : α) (t : List α) (d : α) :
    (l ++ x :: t).getD l.length d = x := by
  rw [List.getD_eq_getElem?_getD, getElem?_append_len]
  rfl

theorem setInRow_append (row : List Cell) (cell : Cell) :
    setInRow row row.length cell = row ++ [cell] := by
  unfold setInRow
  have h1 : row.length + 1 - row.length = 1 := by omega
  rw [h1]
  exact set_append_cons row Cell.empty cell []

theorem padRowsTo_of_lt (m : CellMatrix) (r : Nat) (h : r < m.length) :
    padRowsTo m r = m := by
  unfold padRowsTo
  have h1 : r + 1 - m.length = 0 := by omega
  rw [h1]
  simp

theorem setAt_last (done : CellMatrix) (pre : List Cell) (cell : Cell) :
    setAt (done ++ [pre]) done.length pre.length cell = done ++ [pre ++ [cell]] := by
  simp only [setAt]
  rw [padRowsTo_of_lt _ _ (by simp)]
  rw [getD_append_len, setInRow_append]
  exact set_append_cons done pre (pre ++ [cell]) []

theorem setAt_newrow (done : CellMatrix) (cell : Cell) :
    setAt done done.length 0 cell = done ++ [[cell]] := by
  simp only [setAt]
  have hp : padRowsTo done done.length = done ++ [[]] := by
    unfold padRowsTo
    have h1 : done.length + 1 - done.length = 1 := by omega
    rw [h1]
    rfl
  rw [hp, getD_append_len]
  exact set_append_cons done [] [cell] []

theorem rowFold_append (cells : List Cell) :
    ∀ (pre : List Cell) (done : CellMatrix),
    (List.enumFrom pre.length cells).foldl
        (fun m2 cp => setAt m2 done.length cp.1 cp.2) (done ++ [pre]) =
      done ++ [pre ++ cells] := by
  induction cells with
  | nil =>
    intro pre done
    simp [List.enumFrom]
  | cons c rest ih =>
    intro pre done
    rw [List.enumFrom_cons, List.foldl_cons]
    dsimp only
    rw [setAt_last]
    have h2 := ih (pre ++ [c]) done
    simp only [List.length_append, List.length_cons, List.length_nil, Nat.zero_add] at h2
    rw [h2]
    simp

theorem matrixFold_append (rows : List (List Cell)) :
    ∀ (done : CellMatrix), (∀ row ∈ rows, row ≠ []) →
    (List.enumFrom done.length rows).foldl
        (fun m rp => rp.2.enum.foldl (fun m2 cp => setAt m2 rp.1 cp.1 cp.2) m) done =
      done ++ rows := by
  induction rows with
  | nil =>
    intro done _
    simp [List.enumFrom]
  | cons row rest ih =>
    intro done hne
    obtain ⟨c, cs, rfl⟩ : ∃ c cs, row = c :: cs := by
      cases row with
      | nil => exact absurd rfl (hne [] (by simp))
      | cons c cs => exact ⟨c, cs, rfl⟩
    rw [List.enumFrom_cons, List.foldl_cons]
    dsimp only
    have hinner :
        (c :: cs).enum.foldl (fun m2 cp => setAt m2 done.length cp.1 cp.2) done =
          done ++ [c :: cs] := by
      rw [show (c :: cs).enum = (0, c) :: List.enumFrom 1 cs from rfl]
      rw [List.foldl_cons]
      dsimp only
      rw [setAt_newrow]
      have h3 := rowFold_append cs [c] done
      simp only [List.length_cons, List.length_nil, Nat.zero_add] at h3
      rw [h3]
      simp
    rw [hinner]
    have h4 := ih (done ++ [c :: cs]) (fun r hr => hne r (by simp [hr]))
    simp only [List.length_append, List.length_cons, List.length_nil, Nat.zero_add] at h4
    rw [h4]
    simp

theorem foldl_flatten_map {α β γ : Type} (g : β → List γ) (f : α → γ → α) :
    ∀ (l : List β) (a : α),
    ((l.map g).flatten).foldl f a = l.foldl (fun x b => (g b).foldl f x) a := by
  intro l
  induction l with
  | nil => intro a; rfl
  | cons b t ih =>
    intro a
    simp only [List.map_cons, List.flatten_cons, List.foldl_append, List.foldl_cons, ih]

theorem foldl_congr_fun {α β : Type} {f g : α → β → α} (h : ∀ a b, f a b = g a b) :
    ∀ (l : List β) (a : α), l.foldl f a = l.foldl g a := by
  intro l
  induction l with
  | nil => intro a; rfl
  | cons b t ih =>
    intro a
    rw [List.foldl_cons, List.foldl_cons, h, ih]

theorem foldl_congr_mem {α β : Type} {f g : α → β → α} :
    ∀ (l : List β), (∀ b ∈ l, ∀ a, f a b = g a b) → ∀ (a : α), l.foldl f a = l.foldl g a := by
  intro l
  induction l with
  | nil => intro _ a; rfl
  | cons b t ih =>
    intro h a
    rw [List.foldl_cons, List.foldl_cons, h b (by simp), ih (fun x hx a2 => h x (by simp [hx]) a2)]

theorem rowsToCells_foldl (rows : List (List Cell)) (m0 : CellMatrix) :
    (rowsToCells rows).foldl (fun acc e => setAt acc e.r e.c e.v) m0 =
    rows.enum.foldl
      (fun acc rp => rp.2.enum.foldl (fun m2 cp => setAt m2 rp.1 cp.1 cp.2) acc) m0 := by
  unfold rowsToCells
  rw [foldl_flatten_map]
  exact foldl_congr_fun (fun x rp => List.foldl_map _ _ _ _) rows.enum m0

theorem snd_mem_of_mem_enum {α : Type} {p : Nat × α} {l : List α} (h : p ∈ l.enum) :
    p.2 ∈ l :=
  List.getElem?_mem (List.mem_enum_iff_getElem?.mp h)

theorem set_of_getElem? {α : Type} : ∀ (l : List α) (n : Nat) (a : α),
    l[n]? = some a → l.set n a = l := by
  intro l
  induction l with
  | nil => intro n a h; simp at h
  | cons x t ih =>
    intro n a h
    cases n with
    | zero =>
      simp only [List.getElem?_cons_zero, Option.some.injEq] at h
      simp [h]
    | succ m =>
      simp only [List.getElem?_cons_succ] at h
      simp [ih m a h]

theorem setAt_self (m : CellMatrix) (r c : Nat) (row : List Cell) (cell : Cell)
    (hr : m[r]? = some row) (hc : row[c]? = some cell) : setAt m r c cell = m := by
  obtain ⟨hrlt, -⟩ := List.getElem?_eq_some_iff.mp hr
  obtain ⟨hclt, -⟩ := List.getElem?_eq_some_iff.mp hc
  simp only [setAt]
  rw [padRowsTo_of_lt m r hrlt]
  have hgd : m.getD r [] = row := by
    rw [List.getD_eq_getElem?_getD, hr]
    rfl
  rw [hgd]
  have hsir : setInRow row c cell = row := by
    unfold setInRow
    have h1 : c + 1 - row.length = 0 := by omega
    rw [h1]
    rw [show List.replicate 0 Cell.empty = [] from rfl, List.append_nil]
    exact set_of_getElem? row c cell hc
  rw [hsir]
  exact set_of_getElem? m r row hr

theorem rowFold_fixed (cells : List (Nat × Cell)) :
    ∀ (m : CellMatrix) (r : Nat) (row : List Cell), m[r]? = some row →
    (∀ cp ∈ cells, row[cp.1]? = some cp.2) →
    cells.foldl (fun m2 cp => setAt m2 r cp.1 cp.2) m = m := by
  induction cells with
  | nil => intro m r row _ _; rfl
  | cons cp t ih =>
    intro m r row hr hcells
    rw [List.foldl_cons]
    rw [setAt_self m r cp.1 row cp.2 hr (hcells cp (by simp))]
    exact ih m r row hr (fun x hx => hcells x (by simp [hx]))

theorem matrixFold_fixed (l : List (Nat × List Cell)) :
    ∀ (m : CellMatrix), (∀ rp ∈ l, m[rp.1]? = some rp.2) →
    l.foldl (fun acc rp => rp.2.enum.foldl (fun m2 cp => setAt m2 rp.1 cp.1 cp.2) acc) m
      = m := by
  induction l with
  | nil => intro m _; rfl
  | cons rp t ih =>
    intro m hl
    rw [List.foldl_cons]
    rw [rowFold_fixed rp.2.enum m rp.1 rp.2 (hl rp (by simp))
      (fun cp hcp => List.mem_enum_iff_getElem?.mp hcp)]
    exact ih m (fun x hx => hl x (by simp [hx]))

theorem guardedFold_rows (rows : List (List Cell))
    (hrne : ∀ row ∈ rows, row ≠ [])
    (hnoemp : ∀ row ∈ rows, ∀ c ∈ row, c ≠ Cell.empty) :
    rows.enum.foldl
      (fun acc rp => rp.2.enum.foldl
        (fun acc2 cp => if cp.2 = Cell.empty then acc2 else setAt acc2 rp.1 cp.1 cp.2) acc)
      [] = rows := by
  have hcong :
      rows.enum.foldl
        (fun acc rp => rp.2.enum.foldl
          (fun acc2 cp => if cp.2 = Cell.empty then acc2 else setAt acc2 rp.1 cp.1 cp.2) acc)
        ([] : CellMatrix) =
      rows.enum.foldl
        (fun acc rp => rp.2.enum.foldl (fun m2 cp => setAt m2 rp.1 cp.1 cp.2) acc)
        ([] : CellMatrix) := by
    refine foldl_congr_mem rows.enum ?_ []
    intro rp hrp acc
    refine foldl_congr_mem rp.2.enum ?_ acc
    intro cp hcp acc2
    rw [if_neg (hnoemp rp.2 (snd_mem_of_mem_enum hrp) cp.2 (snd_mem_of_mem_enum hcp))]
  rw [hcong]
  exact matrixFold_append rows [] hrne

theorem celldataToMatrixW_mkSheet (name : String) (rows : List (List Cell))
    (hne : rows ≠ []) (hrne : ∀ row ∈ rows, row ≠ [])
    (hnoemp : ∀ row ∈ rows, ∀ c ∈ row, c ≠ Cell.empty) :
    celldataToMatrixW (mkSheet name rows) = rows := by
  have hdata : celldataToMatrixFromCells (rowsToCells rows) = rows := by
    unfold celldataToMatrixFromCells
    rw [rowsToCells_foldl]
    exact matrixFold_append rows [] hrne
  simp only [celldataToMatrixW, mkSheet]
  rw [hdata]
  rw [if_pos (fun h => hne (List.eq_nil_of_length_eq_zero h))]
  rw [guardedFold_rows rows hrne hnoemp]
  rw [rowsToCells_foldl]
  exact matrixFold_fixed rows.enum rows (fun rp hrp => List.mem_enum_iff_getElem?.mp hrp)

/-! ## Helper lemmas: the key/value branch on a freshly built sheet -/

theorem createCellV_ne_empty (x : Option Json) : createCellV x ≠ Cell.empty := by
  rcases x with _ | v
  · exact fun h => Cell.noConfusion h
  · cases v <;> exact fun h => Cell.noConfusion h

theorem getCellText_createCellV (v : Json) :
    getCellText (createCellV (some v)) = cellDisplay (some v) := by
  cases v <;> rfl

theorem tmFind_setIfAbsent_ne (m : TypeMap) (p q : String) (t : JType) (h : ¬ p = q) :
    tmFind (tmSetIfAbsent m p t) q = tmFind m q := by
  unfold tmSetIfAbsent
  cases hf : tmFind m p with
  | some _ => rfl
  | none =>
    unfold tmFind
    rw [List.find?_append]
    have hb : ((p, t).1 == q) = false := beq_eq_false_iff_ne.mpr h
    rw [show List.find? (fun e => e.1 == q) [(p, t)] = none from by
      simp [List.find?, hb]]
    rw [Option.or_none]

theorem objLookup_mem (l : List (String × Json)) (k : String) (v : Json)
    (h : objLookup l k = some v) : (k, v) ∈ l := by
  induction l with
  | nil => simp [objLookup, List.find?] at h
  | cons e rest ih =>
    by_cases he : e.1 = k
    · have hsome : objLookup (e :: rest) k = some e.2 := by
        unfold objLookup
        rw [List.find?_cons_of_pos _ (by simpa using he)]
      rw [hsome] at h
      simp only [Option.some.injEq] at h
      have hekv : e = (k, v) := by
        rcases e with ⟨k1, v1⟩
        simp only at he h
        rw [he, h]
      exact hekv ▸ List.mem_cons_self e rest
    · have hrec : objLookup (e :: rest) k = objLookup rest k := by
        unfold objLookup
        rw [List.find?_cons_of_neg _ (by simpa using he)]
      rw [hrec] at h
      exact List.mem_cons_of_mem e (ih h)

theorem kvLoop_cons_step (k : String) (v : Json) (rows : List (List Cell))
    (acc : List (String × Json)) (tm : TypeMap) (hk : ¬ k = "") :
    kvLoop ([createCellV (some (Json.str k)), createCellV (some v)] :: rows) acc tm =
      kvLoop rows
        (objSet acc k (castWithType (cellDisplay (some v)) (tmFind tm k)).casted)
        (tmSetIfAbsent tm k (castWithType (cellDisplay (some v)) (tmFind tm k)).type) := by
  simp only [kvLoop]
  rw [show getCellText (cellAt [createCellV (some (Json.str k)), createCellV (some v)] 0)
      = k from by
    rw [show cellAt [createCellV (some (Json.str k)), createCellV (some v)] 0
        = createCellV (some (Json.str k)) from rfl]
    rw [getCellText_createCellV]
    rfl]
  rw [if_neg hk]
  rw [show getCellText (cellAt [createCellV (some (Json.str k)), createCellV (some v)] 1)
      = cellDisplay (some v) from by
    rw [show cellAt [createCellV (some (Json.str k)), createCellV (some v)] 1
        = createCellV (some v) from rfl]
    rw [getCellText_createCellV]]

theorem kvLoop_map_fields (fields : List (String × Json)) :
    ∀ (acc : List (String × Json)) (tm : TypeMap),
    (∀ kv ∈ fields, kv.1 ≠ "") →
    (∀ kv ∈ fields, tmFind tm kv.1 = none) →
    (fields.map Prod.fst).Nodup →
    (∀ kv ∈ fields, ∀ p ∈ acc, p.1 ≠ kv.1) →
    (kvLoop (fields.map (fun kv =>
        [createCellV (some (Json.str kv.1)), createCellV (some kv.2)])) acc tm).1 =
      acc ++ fields.map (fun kv =>
        (kv.1, (castWithType (cellDisplay (some kv.2)) none).casted)) := by
  induction fields with
  | nil =>
    intro acc tm _ _ _ _
    simp [kvLoop]
  | cons kv rest ih =>
    intro acc tm hk htm hnd hacc
    have hnd2 : kv.1 ∉ rest.map Prod.fst ∧ (rest.map Prod.fst).Nodup := by
      rw [List.map_cons, List.nodup_cons] at hnd
      exact hnd
    rw [List.map_cons]
    rw [kvLoop_cons_step kv.1 kv.2 _ acc tm (hk kv (by simp))]
    rw [htm kv (by simp)]
    have haccfresh : ∀ p ∈ acc, p.1 ≠ kv.1 := hacc kv (by simp)
    rw [objSet_fresh acc kv.1 _ haccfresh]
    rw [ih (acc ++ [(kv.1, (castWithType (cellDisplay (some kv.2)) none).casted)])
      (tmSetIfAbsent tm kv.1 (castWithType (cellDisplay (some kv.2)) none).type)
      (fun x hx => hk x (by simp [hx]))
      (fun x hx => by
        rw [tmFind_setIfAbsent_ne tm kv.1 x.1 _
          (fun hkx => hnd2.1 (hkx ▸ List.mem_map.mpr ⟨x, hx, rfl⟩))]
        exact htm x (by simp [hx]))
      hnd2.2
      (fun x hx p hp => by
        rcases List.mem_append.mp hp with hp1 | hp2
        · exact hacc x (by simp [hx]) p hp1
        · rw [List.mem_singleton.mp hp2]
          exact fun hkx => hnd2.1 (hkx ▸ List.mem_map.mpr ⟨x, hx, rfl⟩))]
    simp

/-- C2 (counterexample): the round trip is not type-preserving even for an
accepted, unedited document.  `\x7b"a": "42"\x7d` is accepted as `objectKV`,
but serializing the freshly loaded grid with the payload's own (empty) type
map re-infers the cell text `42` as a number: the output is
`\x7b"a": 42\x7d`, not the original document. -/
theorem claim2_counterexample :
    validateAndExtract (Json.obj [("a", Json.str "42")]) =
      Extracted.objectKV [("a", Json.str "42")] ∧
    (toSheetPayloadFromContent (Content.json (Json.obj [("a", Json.str "42")]))).map
      (fun p => (sheetToText p.sheets p.typeMap p.dataKind p.wrapper).outJson)
      = Except.ok (some (Json.obj [("a", Json.num ⟨42, 0⟩)])) ∧
    Json.obj [("a", Json.num ⟨42, 0⟩)] ≠ Json.obj [("a", Json.str "42")] := by
  exact ⟨by decide, by decide, by decide⟩

/-- C2 (amended): the unedited round trip is faithful exactly for documents
whose leaf texts re-infer to their original values.  For an `objectKV`
document with at least one field, non-empty pairwise-distinct keys, primitive
values, and every value cast-stable (free-form inference on its display text
returns the value itself), serializing the freshly loaded grid with the
payload's own type map reproduces the original document exactly.  (Because
the load-time map is empty, every cell goes through free-form inference: a
string that looks like a number, boolean or null changes type — see the
counterexample — and an empty-string value, whose key row would be dropped,
is excluded here because its cast is `""` only under no hint anyway.  A
`"dataKind"` key holding `"csv"` or `"xlsx"` is excluded: the loader's
property sniffing would route such a document into the csv/xlsx branches
before the JSON shape path is ever reached.) -/
theorem claim2_amended_objectkv_roundtrip
    (fields : List (String × Json))
    (hne : fields ≠ [])
    (hk : ∀ kv ∈ fields, kv.1 ≠ "")
    (hnd : (fields.map Prod.fst).Nodup)
    (hprim : ∀ kv ∈ fields, isPrimitive kv.2 = true)
    (hdk : objLookup fields "dataKind" ≠ some (Json.str "csv") ∧
      objLookup fields "dataKind" ≠ some (Json.str "xlsx"))
    (hstable : ∀ kv ∈ fields, (castWithType (cellDisplay (some kv.2)) none).casted = kv.2) :
    validateAndExtract (Json.obj fields) = Extracted.objectKV fields ∧
    (toSheetPayloadFromContent (Content.json (Json.obj fields))).map
      (fun p => (sheetToText p.sheets p.typeMap p.dataKind p.wrapper).outJson)
      = Except.ok (some (Json.obj fields)) := by
  have hno : (objLookup fields "data").all (fun v => !isJsArray v) = true := by
    cases hl : objLookup fields "data" with
    | none => rfl
    | some v =>
      have hp := hprim ("data", v) (objLookup_mem fields "data" v hl)
      cases v with
      | arr xs => exact absurd hp (by simp [isPrimitive])
      | obj fs => exact absurd hp (by simp [isPrimitive])
      | null => rfl
      | bool b => rfl
      | num n => rfl
      | str s => rfl
  have hcond : ((fields.map (·.2)).all (fun v => isPrimitive v || isArrayOfPrimitives v))
      = true := by
    rw [List.all_eq_true]
    intro v hv
    rcases List.mem_map.mp hv with ⟨kv, hkv, rfl⟩
    rw [hprim kv hkv]
    rfl
  have hvae : validateAndExtract (Json.obj fields) = Extracted.objectKV fields := by
    rw [validateAndExtract_obj_not_wrapped fields hno]
    rw [if_pos hcond]
  refine ⟨hvae, ?_⟩
  have hsniff : toSheetPayloadFromContent (Content.json (Json.obj fields)) =
      Except.ok (toSheetPayloadFromJson (Json.obj fields)) := by
    simp only [toSheetPayloadFromContent]
    rcases hdk0 : objLookup fields "dataKind" with _ | v
    · rfl
    · rcases v with _ | b | n | s | xs | fs2
      · rfl
      · rfl
      · rfl
      · have hs1 : ¬ s = "csv" := fun h => hdk.1 (by rw [hdk0, h])
        have hs2 : ¬ s = "xlsx" := fun h => hdk.2 (by rw [hdk0, h])
        dsimp only
        rw [if_neg hs1, if_neg hs2]
      · rfl
      · rfl
  have hjson : toSheetPayloadFromJson (Json.obj fields) =
      { sheets := [mkSheet "Sheet1" (fields.map (fun kv =>
          [createCellV (some (Json.str kv.1)), createCellV (some kv.2)]))],
        typeMap := [], dataKind := DataKind.dkObject,
        text := some (Json.str (jsonStringifyPretty (Json.obj fields))) } := by
    simp only [toSheetPayloadFromJson]
    rw [hvae]
    simp only [createSheetsFromJson, createSheetFromObject]
    rw [if_neg hne]
    rw [show fields.enum = List.enumFrom 0 fields from rfl]
    rw [map_snd_comp_enumFrom (fun kv =>
      [createCellV (some (Json.str kv.1)), createCellV (some kv.2)]) fields 0]
  rw [hsniff, hjson]
  simp only [Except.map]
  have hmat : celldataToMatrixW (mkSheet "Sheet1" (fields.map (fun kv =>
      [createCellV (some (Json.str kv.1)), createCellV (some kv.2)]))) =
      fields.map (fun kv => [createCellV (some (Json.str kv.1)), createCellV (some kv.2)]) := by
    refine celldataToMatrixW_mkSheet _ _ ?_ ?_ ?_
    · exact fun h => hne (List.map_eq_nil_iff.mp h)
    · intro row hrow
      rcases List.mem_map.mp hrow with ⟨kv, _, rfl⟩
      simp
    · intro row hrow c hc
      rcases List.mem_map.mp hrow with ⟨kv, _, rfl⟩
      simp only [List.mem_cons, List.mem_singleton, List.not_mem_nil, or_false] at hc
      rcases hc with rfl | rfl
      · exact createCellV_ne_empty _
      · exact createCellV_ne_empty _
  simp only [sheetToText, List.headD_cons]
  rw [hmat]
  rw [kvLoop_map_fields fields [] [] hk (fun kv _ => rfl) hnd
    (fun kv _ p hp => absurd hp (List.not_mem_nil p))]
  rw [List.nil_append]
  have hmapid : fields.map (fun kv =>
      (kv.1, (castWithType (cellDisplay (some kv.2)) none).casted)) = fields := by
    conv_rhs => rw [← List.map_id fields]
    refine List.map_congr_left ?_
    intro kv hkv
    have hs := hstable kv hkv
    rcases kv with ⟨k1, v1⟩
    simp only at hs ⊢
    rw [hs]
    rfl
  rw [hmapid]

/-- Witness for C2 (amended): the four-field document with one value of each
stable primitive type round-trips to itself. -/
theorem claim2_amended_objectkv_roundtrip_witness :
    validateAndExtract (Json.obj [("a", Json.str "x"), ("n", Json.num ⟨7, 0⟩),
        ("b", Json.bool true), ("z", Json.null)]) =
      Extracted.objectKV [("a", Json.str "x"), ("n", Json.num ⟨7, 0⟩),
        ("b", Json.bool true), ("z", Json.null)] ∧
    (toSheetPayloadFromContent (Content.json (Json.obj [("a", Json.str "x"),
        ("n", Json.num ⟨7, 0⟩), ("b", Json.bool true), ("z", Json.null)]))).map
      (fun p => (sheetToText p.sheets p.typeMap p.dataKind p.wrapper).outJson)
      = Except.ok (some (Json.obj [("a", Json.str "x"), ("n", Json.num ⟨7, 0⟩),
          ("b", Json.bool true), ("z", Json.null)])) :=
  claim2_amended_objectkv_roundtrip
    [("a", Json.str "x"), ("n", Json.num ⟨7, 0⟩), ("b", Json.bool true), ("z", Json.null)]
    (by decide) (by decide) (by decide) (by decide) (by decide) (by decide)
